import Mathlib

/-!
Verification of the icontool sprite-sheet compiler/decompiler.

This file is a shallow embedding of the core of the `icontool` program:
the DMI metadata parser (`src/metadata.rs`, exposed as `crate::parser`),
the canvas sizing and frame painting of the compile pass (`src/compile.rs`),
the frame extraction of the decompile pass (`src/decompile.rs`), the YAML
index-map helpers (`src/indexmap_helper.rs`) and the constants
(`src/constant.rs`).

Bytes are modelled as `Nat` with explicit `< 256` bounds, `u32` values as
`Nat` (the program's checked arithmetic panics on overflow, so all theorems
speak about the non-overflowing domain), strings as `List Char` where the
byte-level behaviour matters, and Rust panics as an explicit `panicked`
outcome distinct from `Err` results.

The external `base64` and `lz4_flex` crates are out-of-scope collaborators
of the repository; they are modelled from the spec (section 4.3): a
standard-alphabet base64 codec and a size-prepended block compressor whose
decompression checks the prepended length.
-/
set_option maxRecDepth 100000

namespace IconTool

/-! ## Definitions -/

/-! ## Integer square root (num_integer's `Roots::sqrt`, i.e. floor sqrt) -/
/-- Binary search for the floor square root of `n` on the invariant
`lo * lo ≤ n < hi * hi`, `lo < hi`; fuel bounds the iteration count. -/
def isqrtGo (n : Nat) : Nat → Nat → Nat → Nat
  | 0, lo, _ => lo
  | fuel+1, lo, hi =>
    let mid := (lo + hi) / 2
    if mid = lo then lo
    else if mid * mid ≤ n then isqrtGo n fuel mid hi
    else isqrtGo n fuel lo mid

/-- Floor integer square root, the behaviour of `num_integer::Roots::sqrt`
on `u32`. Defined by binary search so that it evaluates in the kernel
with logarithmic recursion depth. -/
def isqrt (n : Nat) : Nat := isqrtGo n (n+1) 0 (n+1)

/-! ## Base64 (spec section 4.3: "standard-alphabet base64 string")

Modelled from the spec: the `base64` crate's `BASE64_STANDARD` engine is an
external collaborator; we model RFC 4648 standard-alphabet base64 with
mandatory canonical padding, which is that engine's contract. -/
/-- The standard-alphabet character for a 6-bit value. -/
def b64Char (v : Nat) : Char :=
  if v < 26 then Char.ofNat (65 + v)
  else if v < 52 then Char.ofNat (97 + (v - 26))
  else if v < 62 then Char.ofNat (48 + (v - 52))
  else if v = 62 then '+'
  else '/'

/-- The 6-bit value of a standard-alphabet character, `none` outside the
alphabet (the engine's invalid-byte decode error). -/
def b64Val (c : Char) : Option Nat :=
  let n := c.toNat
  if 65 ≤ n ∧ n ≤ 90 then some (n - 65)
  else if 97 ≤ n ∧ n ≤ 122 then some (n - 97 + 26)
  else if 48 ≤ n ∧ n ≤ 57 then some (n - 48 + 52)
  else if n = 43 then some 62
  else if n = 47 then some 63
  else none

/-- Standard base64 encoding with padding (`BASE64_STANDARD.encode`). -/
def base64_encode : List Nat → List Char
  | [] => []
  | [b1] => [b64Char (b1 / 4), b64Char (b1 % 4 * 16), '=', '=']
  | [b1, b2] => [b64Char (b1 / 4), b64Char (b1 % 4 * 16 + b2 / 16), b64Char (b2 % 16 * 4), '=']
  | b1 :: b2 :: b3 :: rest =>
      b64Char (b1 / 4) :: b64Char (b1 % 4 * 16 + b2 / 16) ::
      b64Char (b2 % 16 * 4 + b3 / 64) :: b64Char (b3 % 64) :: base64_encode rest

/-- Standard base64 decoding with mandatory canonical padding
(`BASE64_STANDARD.decode`); `none` is the crate's `DecodeError`. -/
def base64_decode : List Char → Option (List Nat)
  | [] => some []
  | c1 :: c2 :: c3 :: c4 :: rest =>
    match b64Val c1, b64Val c2 with
    | some v1, some v2 =>
      if c3 = '=' then
        if c4 = '=' ∧ rest = [] ∧ v2 % 16 = 0 then some [v1 * 4 + v2 / 16] else none
      else if c4 = '=' then
        match b64Val c3 with
        | some v3 =>
            if rest = [] ∧ v3 % 4 = 0 then
              some [v1 * 4 + v2 / 16, v2 % 16 * 16 + v3 / 4]
            else none
        | none => none
      else
        match b64Val c3, b64Val c4, base64_decode rest with
        | some v3, some v4, some bs =>
            some ((v1 * 4 + v2 / 16) :: (v2 % 16 * 16 + v3 / 4) :: (v3 % 4 * 64 + v4) :: bs)
        | _, _, _ => none
    | _, _ => none
  | _ => none

/-! ## LZ4 block codec with prepended size (spec section 4.3)

Modelled from the spec: `lz4_flex::block::{compress_prepend_size,
decompress_size_prepended}` are an external collaborator, "a size-prepended
block compressor" whose "prepended size must match the decompressed length".
The compressor is modelled as a literals-only LZ4 block writer (a valid LZ4
block stream); the decompressor implements the LZ4 block format (token,
literal run with length extension, match copy with offset) and the wrapper
checks the prepended little-endian `u32` size. -/
/-- Little-endian 4-byte encoding of a `u32` (the prepended size). -/
def u32le (n : Nat) : List Nat :=
  [n % 256, n / 256 % 256, n / 65536 % 256, n / 16777216 % 256]

/-- Read back a little-endian 4-byte `u32`. -/
def readU32le (b0 b1 b2 b3 : Nat) : Nat :=
  b0 + b1 * 256 + b2 * 65536 + b3 * 16777216

/-- LZ4 length-extension bytes for an excess `k`: `k / 255` bytes of 255
followed by the final byte `k % 255`. -/
def lz4ExtBytes (k : Nat) : List Nat := List.replicate (k / 255) 255 ++ [k % 255]

/-- Literals-only LZ4 block: one sequence holding all bytes as literals
(token high nibble = literal length, low nibble 0, no match part in the
final sequence). -/
def lz4_compress (data : List Nat) : List Nat :=
  if data.length < 15 then data.length * 16 :: data
  else 240 :: (lz4ExtBytes (data.length - 15) ++ data)

/-- Read an LZ4 length extension: accumulate bytes while they are 255,
stop at the first byte below 255. -/
def lz4ReadExt : List Nat → Nat → Option (Nat × List Nat)
  | [], _ => none
  | b :: rest, acc => if b = 255 then lz4ReadExt rest (acc + 255) else some (acc + b, rest)

/-- Read a length nibble, following the extension bytes when it is 15. -/
def lz4ReadLen (nib : Nat) (inp : List Nat) : Option (Nat × List Nat) :=
  if nib = 15 then lz4ReadExt inp 15 else some (nib, inp)

/-- Copy `len` bytes from `off` back in the output, byte by byte
(overlapping matches allowed, as in the LZ4 block format). -/
def lz4CopyMatch : Nat → List Nat → Nat → List Nat
  | 0, out, _ => out
  | len+1, out, off => lz4CopyMatch len (out ++ [out.getD (out.length - off) 0]) off

/-- LZ4 block decompression loop over sequences; fuel makes the recursion
structural (every iteration consumes at least the token byte). -/
def lz4DecLoop : Nat → List Nat → List Nat → Option (List Nat)
  | 0, _, _ => none
  | _+1, [], _ => none
  | fuel+1, t :: rest, out =>
    match lz4ReadLen (t / 16) rest with
    | none => none
    | some (litLen, r1) =>
      if litLen ≤ r1.length then
        match r1.drop litLen with
        | [] => some (out ++ r1.take litLen)
        | [_] => none
        | o1 :: o2 :: r3 =>
          let off := o1 + o2 * 256
          if off = 0 ∨ (out ++ r1.take litLen).length < off then none
          else
            match lz4ReadLen (t % 16) r3 with
            | none => none
            | some (mext, r4) =>
                lz4DecLoop fuel r4 (lz4CopyMatch (mext + 4) (out ++ r1.take litLen) off)
      else none

/-- LZ4 block decompression (`none` is the crate's `DecompressError`). -/
def lz4_decompress (inp : List Nat) : Option (List Nat) :=
  lz4DecLoop (inp.length + 1) inp []

/-- `lz4_flex::block::compress_prepend_size`. -/
def compress_prepend_size (data : List Nat) : List Nat :=
  u32le data.length ++ lz4_compress data

/-- `lz4_flex::block::decompress_size_prepended`: read the 4-byte size,
decompress, and require the decompressed length to equal the prepended
size. -/
def decompress_size_prepended (inp : List Nat) : Option (List Nat) :=
  match inp with
  | b0 :: b1 :: b2 :: b3 :: rest =>
    match lz4_decompress rest with
    | some out => if out.length = readU32le b0 b1 b2 b3 then some out else none
    | none => none
  | _ => none

/-! ## Frame codec (decompile.rs `stringify_pixel_data`, and the decode
steps composed by compile.rs `paint_frames`) -/
/-- `stringify_pixel_data` from decompile.rs: compress the pixel data with
lz4 (prepended size), then encode the compressed data as base64. -/
def stringify_pixel_data (pixel_data : List Nat) : List Char :=
  base64_encode (compress_prepend_size pixel_data)

/-- The decode direction exactly as `paint_frames` composes it:
`BASE64_STANDARD.decode` followed by `decompress_size_prepended`. -/
def decode_frame (s : List Char) : Option (List Nat) :=
  (base64_decode s).bind decompress_size_prepended

/-! ## DMI metadata parser (metadata.rs, used by the program as
`crate::parser`)

Nom parsers are embedded as functions `List Char → NomResult α`. A nom
`Err::Error` is recoverable by `alt`/`many0`; `Err::Incomplete` and a Rust
panic are not. The `unwrap()` calls of `parse_state` and
`parse_width`/`parse_height` surface as the `panicked` outcome. -/
/-- Outcome of a nom parser: success with remaining input, a recoverable
`nom::Err::Error`, a `nom::Err::Incomplete`, or a Rust panic. -/
inductive NomResult (α : Type) where
  | ok (rest : List Char) (val : α)
  | fail
  | incomplete
  | panicked
deriving DecidableEq, Repr

/-- Sequencing that propagates `fail`, `incomplete` and `panicked`. -/
def NomResult.andThen (r : NomResult α) (f : List Char → α → NomResult β) : NomResult β :=
  match r with
  | .ok rest v => f rest v
  | .fail => .fail
  | .incomplete => .incomplete
  | .panicked => .panicked

/-- `nom::bytes::complete::tag`. -/
def tagP (pat : List Char) (input : List Char) : NomResult Unit :=
  if pat.isPrefixOf input then .ok (input.drop pat.length) () else .fail

/-- `nom::character::complete::digit1`. -/
def digit1 (input : List Char) : NomResult (List Char) :=
  let ds := input.takeWhile Char.isDigit
  if ds.isEmpty then .fail else .ok (input.dropWhile Char.isDigit) ds

/-- The whitespace class of `nom::character::complete::multispace0`. -/
def isMultispace (c : Char) : Bool := c = ' ' ∨ c = '\t' ∨ c = '\r' ∨ c = '\n'

/-- `multispace0`: never fails, drops leading whitespace. -/
def multispace0 (input : List Char) : List Char := input.dropWhile isMultispace

/-- The `ws` combinator of metadata.rs: `delimited(multispace0, inner,
multispace0)`. -/
def ws (p : List Char → NomResult α) (input : List Char) : NomResult α :=
  match p (multispace0 input) with
  | .ok rest v => .ok (multispace0 rest) v
  | .fail => .fail
  | .incomplete => .incomplete
  | .panicked => .panicked

/-- `nom::bytes::complete::is_not`. -/
def isNotP (stop : List Char) (input : List Char) : NomResult (List Char) :=
  let t := input.takeWhile (fun c => ¬ stop.contains c)
  if t.isEmpty then .fail else .ok (input.drop t.length) t

/-- `nom::multi::many0` with its non-consumption guard (an inner parser
that succeeds without consuming input makes `many0` return `Err::Error`).
Fuel makes the recursion structural; it is at least `input.length + 1`, so
it never runs out while the inner parser consumes input. -/
def many0Loop (p : List Char → NomResult α) : Nat → List Char → NomResult (List α)
  | 0, _ => .fail
  | fuel+1, input =>
    match p input with
    | .fail => .ok input []
    | .incomplete => .incomplete
    | .panicked => .panicked
    | .ok i1 v =>
      if i1.length = input.length then .fail
      else (many0Loop p fuel i1).andThen fun i2 vs => .ok i2 (v :: vs)

/-- `nom::multi::many0`. -/
def many0 (p : List Char → NomResult α) (input : List Char) : NomResult (List α) :=
  many0Loop p (input.length + 1) input

/-- Rust `str::parse::<u32>()`: optional leading `+`, one or more ASCII
digits, value below `2^32`. -/
def rust_parse_u32 (s : List Char) : Option Nat :=
  let ds := match s with
    | '+' :: rest => rest
    | _ => s
  if ds ≠ [] ∧ ds.all Char.isDigit then
    let n := ds.foldl (fun a c => a * 10 + (c.toNat - 48)) 0
    if n < 4294967296 then some n else none
  else none

/-- Split on a separator character, Rust `str::split(sep)` semantics
(`""` yields `[""]`, adjacent separators yield empty pieces). -/
def splitChar (sep : Char) : List Char → List (List Char)
  | [] => [[]]
  | c :: rest =>
    if c = sep then [] :: splitChar sep rest
    else
      match splitChar sep rest with
      | h :: t => (c :: h) :: t
      | [] => [[c]]

/-- `DreamMakerIconState` from metadata.rs (`_loop` is spelled `loopFlag`
because `loop` is also reserved here). -/
structure DreamMakerIconState where
  name : String
  delay : Option (List String)
  dirs : Nat
  frames : Nat
  hotspot : Option (List String)
  loopFlag : Option String
  movement : Option String
  rewind : Option String
deriving DecidableEq, Repr

/-- `DreamMakerIconMetadata` from metadata.rs. -/
structure DreamMakerIconMetadata where
  version : String
  width : Nat
  height : Nat
  states : List DreamMakerIconState
deriving DecidableEq, Repr

/-- `DreamMakerIconStateProperty` from metadata.rs. -/
structure DreamMakerIconStateProperty where
  name : String
  value : String
deriving DecidableEq, Repr

/-- `parse_version`: `"version = " digits "." digits "\n"`. -/
def parse_version (input : List Char) : NomResult String :=
  (tagP "version = ".data input).andThen fun i1 _ =>
  (digit1 i1).andThen fun i2 maj =>
  (tagP ".".data i2).andThen fun i3 _ =>
  (digit1 i3).andThen fun i4 minr =>
  (tagP "\n".data i4).andThen fun i5 _ =>
  .ok i5 (maj.asString ++ "." ++ minr.asString)

/-- `parse_width`: the digits go through `parse::<u32>().unwrap()`, so an
out-of-range value is a panic, not a parse error. -/
def parse_width (input : List Char) : NomResult Nat :=
  (tagP "\twidth = ".data input).andThen fun i1 _ =>
  (digit1 i1).andThen fun i2 ds =>
  (tagP "\n".data i2).andThen fun i3 _ =>
  match rust_parse_u32 ds with
  | some n => .ok i3 n
  | none => .panicked

/-- `parse_height`, mirror of `parse_width`. -/
def parse_height (input : List Char) : NomResult Nat :=
  (tagP "\theight = ".data input).andThen fun i1 _ =>
  (digit1 i1).andThen fun i2 ds =>
  (tagP "\n".data i2).andThen fun i3 _ =>
  match rust_parse_u32 ds with
  | some n => .ok i3 n
  | none => .panicked

/-- `parse_optional_width`: `alt((parse_width, success(32)))`; only a
recoverable `Err::Error` falls through to the default. -/
def parse_optional_width (input : List Char) : NomResult Nat :=
  match parse_width input with
  | .fail => .ok input 32
  | r => r

/-- `parse_optional_height`: `alt((parse_height, success(32)))`. -/
def parse_optional_height (input : List Char) : NomResult Nat :=
  match parse_height input with
  | .fail => .ok input 32
  | r => r

/-- The character walk of `in_quotes`: backslash sets a skip flag (and is
not copied), an unskipped quote ends the string (leaving the quote in the
remaining input), anything else is copied. Exhausting the input is
`Err::Incomplete`. -/
def in_quotes_loop : List Char → Bool → String → NomResult String
  | [], _, _ => .incomplete
  | c :: rest, skip, ret =>
    if c = '\\' ∧ skip = false then in_quotes_loop rest true ret
    else if c = '"' ∧ skip = false then .ok (c :: rest) ret
    else in_quotes_loop rest false (ret.push c)

/-- `in_quotes` from metadata.rs. -/
def in_quotes (input : List Char) : NomResult String := in_quotes_loop input false ""

/-- `parse_quoted_string`: `delimited('"', in_quotes, '"')`. -/
def parse_quoted_string (input : List Char) : NomResult String :=
  (tagP "\"".data input).andThen fun i1 _ =>
  (in_quotes i1).andThen fun i2 s =>
  (tagP "\"".data i2).andThen fun i3 _ =>
  .ok i3 s

/-- `parse_state_name`: `"state = " quotedString "\n"`. -/
def parse_state_name (input : List Char) : NomResult String :=
  (tagP "state = ".data input).andThen fun i1 _ =>
  (parse_quoted_string i1).andThen fun i2 name =>
  (tagP "\n".data i2).andThen fun i3 _ =>
  .ok i3 name

/-- `parse_property_name`: `is_not(" ")`. -/
def parse_property_name (input : List Char) : NomResult String :=
  (isNotP " ".data input).andThen fun i1 cs => .ok i1 cs.asString

/-- `parse_property_value`: `is_not("\n")`. -/
def parse_property_value (input : List Char) : NomResult String :=
  (isNotP "\n".data input).andThen fun i1 cs => .ok i1 cs.asString

/-- `parse_state_property`: `"\t" propName " = " propValue "\n"`. -/
def parse_state_property (input : List Char) : NomResult DreamMakerIconStateProperty :=
  (tagP "\t".data input).andThen fun i1 _ =>
  (parse_property_name i1).andThen fun i2 name =>
  (tagP " = ".data i2).andThen fun i3 _ =>
  (parse_property_value i3).andThen fun i4 value =>
  (tagP "\n".data i4).andThen fun i5 _ =>
  .ok i5 ⟨name, value⟩

/-- `parse_state_properties`: `many0(parse_state_property)`. -/
def parse_state_properties (input : List Char) : NomResult (List DreamMakerIconStateProperty) :=
  many0 parse_state_property input

/-- Accumulator of the property `for` loop in `parse_state` (the local
`Option` variables). -/
structure StateAcc where
  delay : Option (List String)
  dirs : Option Nat
  frames : Option Nat
  hotspot : Option (List String)
  loopFlag : Option String
  movement : Option String
  rewind : Option String
deriving DecidableEq, Repr

/-- The empty accumulator (all locals start as `None`). -/
def StateAcc.init : StateAcc := ⟨none, none, none, none, none, none, none⟩

/-- The property `for` loop of `parse_state` followed by the struct
construction: an unknown property name is `return fail(input)`; a `dirs` or
`frames` value that does not parse as `u32` panics (`unwrap`), and a
missing `dirs`/`frames` after the loop panics (`unwrap` on `None`). -/
def stateLoop (rest : List Char) (name : String) :
    StateAcc → List DreamMakerIconStateProperty → NomResult DreamMakerIconState
  | acc, [] =>
    match acc.dirs, acc.frames with
    | some d, some f =>
        .ok rest ⟨name, acc.delay, d, f, acc.hotspot, acc.loopFlag, acc.movement, acc.rewind⟩
    | _, _ => .panicked
  | acc, p :: ps =>
    if p.name = "delay" then
      stateLoop rest name { acc with delay := some ((splitChar ',' p.value.data).map List.asString) } ps
    else if p.name = "dirs" then
      match rust_parse_u32 p.value.data with
      | some n => stateLoop rest name { acc with dirs := some n } ps
      | none => .panicked
    else if p.name = "frames" then
      match rust_parse_u32 p.value.data with
      | some n => stateLoop rest name { acc with frames := some n } ps
      | none => .panicked
    else if p.name = "hotspot" then
      stateLoop rest name { acc with hotspot := some ((splitChar ',' p.value.data).map List.asString) } ps
    else if p.name = "loop" then
      stateLoop rest name { acc with loopFlag := some p.value } ps
    else if p.name = "movement" then
      stateLoop rest name { acc with movement := some p.value } ps
    else if p.name = "rewind" then
      stateLoop rest name { acc with rewind := some p.value } ps
    else .fail

/-- `parse_state`: state name, properties, then the property loop. -/
def parse_state (input : List Char) : NomResult DreamMakerIconState :=
  (parse_state_name input).andThen fun i1 name =>
  (parse_state_properties i1).andThen fun i2 props =>
  stateLoop i2 name StateAcc.init props

/-- `parse_states`: `many0(parse_state)`. -/
def parse_states (input : List Char) : NomResult (List DreamMakerIconState) :=
  many0 parse_state input

/-- `nomify_metadata`: the whole document. -/
def nomify_metadata (input : List Char) : NomResult DreamMakerIconMetadata :=
  (ws (tagP "# BEGIN DMI".data) input).andThen fun i1 _ =>
  (parse_version i1).andThen fun i2 version =>
  (parse_optional_width i2).andThen fun i3 width =>
  (parse_optional_height i3).andThen fun i4 height =>
  (parse_states i4).andThen fun i5 states =>
  (ws (tagP "# END DMI".data) i5).andThen fun i6 _ =>
  .ok i6 ⟨version, width, height, states⟩

/-- The error type of error.rs (the variants reachable from the embedded
core; payloads that only carry display text are reduced to what the
theorems inspect). -/
inductive IconToolError where
  | DecodeError
  | DecompressError
  | FrameCountMismatch (name : String) (expected actual : Nat)
  | IncompleteParseError (rest : String)
  | InvalidType (key : String)
  | MissingKey (key : String)
  | ParseError
  | TooManyFrames
  | TooManyIconStates (w h : Nat)
deriving DecidableEq, Repr

/-- A `Result` that also records Rust panics. -/
inductive PResult (α : Type) where
  | ok (val : α)
  | err (e : IconToolError)
  | panicked
deriving DecidableEq, Repr

/-- `parse_metadata`: run `nomify_metadata`; a nom error becomes
`ParseError` (via `From<nom::Err>`), leftover input becomes
`IncompleteParseError`. -/
def parse_metadata (input : List Char) : PResult DreamMakerIconMetadata :=
  match nomify_metadata input with
  | .ok rest m => if rest.isEmpty then .ok m else .err (.IncompleteParseError rest.asString)
  | .fail => .err .ParseError
  | .incomplete => .err .ParseError
  | .panicked => .panicked

/-! ## YAML index map and helpers (indexmap_helper.rs, constant.rs) -/
/-- serde_yml values, as far as the tool inspects them: strings (frame
transports, the metadata text, paths) and non-negative integers (the image
dimensions). -/
inductive Value where
  | str (s : List Char)
  | num (n : Nat)
deriving DecidableEq, Repr

/-- The ordered `IndexMap<String, Value>` as an association list built by
insertion (keys unique by construction). -/
abbrev Yaml := List (String × Value)

/-- `IndexMap::get`. -/
def ymGet : Yaml → String → Option Value
  | [], _ => none
  | (k, v) :: rest, key => if k = key then some v else ymGet rest key

/-- `IndexMap::insert`: update in place when the key exists, else append. -/
def ymInsert : Yaml → String → Value → Yaml
  | [], key, v => [(key, v)]
  | (k, w) :: rest, key, v =>
    if k = key then (k, v) :: rest else (k, w) :: ymInsert rest key v

/-- `serde_yml::Value::as_str`. -/
def Value.as_str : Value → Option (List Char)
  | .str s => some s
  | _ => none

/-- `serde_yml::Value::as_u64` (the embedded values are non-negative). -/
def Value.as_u64 : Value → Option Nat
  | .num n => some n
  | _ => none

/-- `get_string` from indexmap_helper.rs. -/
def get_string (yaml : Yaml) (key : String) : PResult (List Char) :=
  match ymGet yaml key with
  | some v =>
    match v.as_str with
    | some s => .ok s
    | none => .err (.InvalidType key)
  | none => .err (.MissingKey key)

/-- `get_u32` from indexmap_helper.rs (rejects values above `u32::MAX`). -/
def get_u32 (yaml : Yaml) (key : String) : PResult Nat :=
  match ymGet yaml key with
  | some v =>
    match v.as_u64 with
    | some n => if n > 4294967295 then .err (.InvalidType key) else .ok n
    | none => .err (.InvalidType key)
  | none => .err (.MissingKey key)

/-- `get_icon_state_frames` from indexmap_helper.rs: the string value split
on `'\n'`. -/
def get_icon_state_frames (yaml : Yaml) (key : String) : PResult (List (List Char)) :=
  match ymGet yaml key with
  | some v =>
    match v.as_str with
    | some s => .ok (splitChar '\n' s)
    | none => .err (.InvalidType key)
  | none => .err (.MissingKey key)

/-- constant.rs `DMI_METADATA_KEY`. -/
def DMI_METADATA_KEY : String := "__dmi_metadata"

/-- constant.rs `DMI_PATH_KEY`. -/
def DMI_PATH_KEY : String := "__dmi_path"

/-- constant.rs `IMAGE_HEIGHT_KEY`. -/
def IMAGE_HEIGHT_KEY : String := "__image_height"

/-- constant.rs `IMAGE_WIDTH_KEY`. -/
def IMAGE_WIDTH_KEY : String := "__image_width"

/-! ## Image model

An RGBA8 image buffer: a fixed width/height and a row-major grid of
pixels. `put_pixel`/`get_pixel` panic out of bounds in the `image` crate,
so `put_pixel` returns `none` out of bounds. -/
/-- One RGBA pixel, four 8-bit channels. -/
structure Rgba where
  r : Nat
  g : Nat
  b : Nat
  a : Nat
deriving DecidableEq, Repr

/-- An RGBA8 image buffer. -/
structure Image where
  width : Nat
  height : Nat
  rows : List (List Rgba)
deriving DecidableEq, Repr

/-- `DynamicImage::new_rgba8`: an all-zero (transparent) canvas. -/
def DynamicImage_new_rgba8 (w h : Nat) : Image :=
  ⟨w, h, List.replicate h (List.replicate w ⟨0, 0, 0, 0⟩)⟩

/-- `ImageBuffer::put_pixel` (panics out of bounds, hence `Option`). -/
def Image.put_pixel (img : Image) (x y : Nat) (p : Rgba) : Option Image :=
  if x < img.width ∧ y < img.height then
    some { img with rows := img.rows.set y ((img.rows.getD y []).set x p) }
  else none

/-- `GenericImageView::get_pixel` as a total read (theorems that use it
carry in-bounds hypotheses, since the crate panics out of bounds). -/
def Image.get_pixel (img : Image) (x y : Nat) : Rgba :=
  (img.rows.getD y []).getD x ⟨0, 0, 0, 0⟩

/-! ## Canvas sizing (compile.rs `get_image_dimensions`) -/
/-- The `frames_needed` accumulation loop. -/
def frames_needed (states : List DreamMakerIconState) : Nat :=
  states.foldl (fun acc s => acc + s.dirs * s.frames) 0

/-- The growth computation of `get_image_dimensions` (spec steps a-f):
square pixel area, floor sqrt, frames per row, new width, rows, new
height. -/
def grow_dimensions (icon_width icon_height needed : Nat) : Nat × Nat :=
  let pixels_square_needed := icon_width * icon_height * needed
  let pixels_needed := isqrt pixels_square_needed
  let frames_needed_per_row := pixels_needed / icon_width + 1
  let pixels_needed_per_row := frames_needed_per_row * icon_width
  let rows_needed := needed / frames_needed_per_row + 1
  (pixels_needed_per_row, rows_needed * icon_height)

/-- `get_image_dimensions` from compile.rs. A zero icon width/height makes
the Rust `u32` divisions panic, modelled explicitly. The final sanity
check uses the hard-coded 1024 bound of compile.rs. -/
def get_image_dimensions (yaml : Yaml) (dmi : DreamMakerIconMetadata) : PResult (Nat × Nat) :=
  match get_u32 yaml IMAGE_WIDTH_KEY with
  | .err e => .err e
  | .panicked => .panicked
  | .ok image_width =>
    match get_u32 yaml IMAGE_HEIGHT_KEY with
    | .err e => .err e
    | .panicked => .panicked
    | .ok image_height =>
      let icon_width := dmi.width
      let icon_height := dmi.height
      if icon_width = 0 ∨ icon_height = 0 then .panicked
      else
        let needed := frames_needed dmi.states
        let frames_per_row := image_width / icon_width
        let rows_per_image := image_height / icon_height
        let frames_available := frames_per_row * rows_per_image
        let dims := if needed ≥ frames_available
          then grow_dimensions icon_width icon_height needed
          else (image_width, image_height)
        if dims.1 > 1024 ∨ dims.2 > 1024 then .err (.TooManyIconStates dims.1 dims.2)
        else .ok dims

/-! ## Frame painting (compile.rs `paint_frames`) -/
/-- One pixel write of the frame paint loop: four `Vec` indexings into the
decompressed data (Rust indexing panics out of bounds), then
`put_pixel`. -/
def paintPixel (img : Image) (data : List Nat) (cx cy iw x y : Nat) : Option Image :=
  let index := (y * iw + x) * 4
  match data[index]?, data[index+1]?, data[index+2]?, data[index+3]? with
  | some r, some g, some b, some a => img.put_pixel (cx + x) (cy + y) ⟨r, g, b, a⟩
  | _, _, _, _ => none

/-- The inner `for x in 0..icon_width` loop over a row of one frame. -/
def paintRow (data : List Nat) (cx cy iw y : Nat) : Image → List Nat → Option Image
  | img, [] => some img
  | img, x :: xs =>
    match paintPixel img data cx cy iw x y with
    | some img2 => paintRow data cx cy iw y img2 xs
    | none => none

/-- The outer `for y in 0..icon_height` loop over the rows of one frame. -/
def paintRows (data : List Nat) (cx cy iw : Nat) : Image → List Nat → Option Image
  | img, [] => some img
  | img, y :: ys =>
    match paintRow data cx cy iw y img (List.range iw) with
    | some img2 => paintRows data cx cy iw img2 ys
    | none => none

/-- The per-frame pixel write of `paint_frames` (`y` outer, `x` inner). -/
def paintFrame (img : Image) (data : List Nat) (cx cy iw ihgt : Nat) : Option Image :=
  paintRows data cx cy iw img (List.range ihgt)

/-- Outcome of the painting loops: the image plus the mutable cursor, an
error, or a panic. -/
inductive PaintOutcome where
  | ok (img : Image) (cursor_x cursor_y : Nat)
  | err (e : IconToolError)
  | panicked
deriving DecidableEq, Repr

/-- The inner `for frame_base64 in frames_base64` loop of `paint_frames`:
bail out with `TooManyFrames` when the cursor has left the canvas, base64
decode, lz4 decompress, paint the frame, advance the cursor (wrapping at
the image width). -/
def paintStateFrames (iw ihgt image_width image_height : Nat) :
    Image → Nat → Nat → List (List Char) → PaintOutcome
  | img, cursor_x, cursor_y, [] => .ok img cursor_x cursor_y
  | img, cursor_x, cursor_y, f :: fs =>
    if cursor_y ≥ image_height then .err .TooManyFrames
    else
      match base64_decode f with
      | none => .err .DecodeError
      | some compressed =>
        match decompress_size_prepended compressed with
        | none => .err .DecompressError
        | some data =>
          match paintFrame img data cursor_x cursor_y iw ihgt with
          | none => .panicked
          | some img2 =>
            let cx2 := cursor_x + iw
            if cx2 ≥ image_width then
              paintStateFrames iw ihgt image_width image_height img2 0 (cursor_y + ihgt) fs
            else
              paintStateFrames iw ihgt image_width image_height img2 cx2 cursor_y fs

/-- The outer `for state in &dmi.states` loop of `paint_frames`: fetch the
state's transport strings, check the count against `dirs * frames`, then
paint the frames. -/
def paintStates (yaml : Yaml) (iw ihgt image_width image_height : Nat) :
    Image → Nat → Nat → List DreamMakerIconState → PaintOutcome
  | img, cx, cy, [] => .ok img cx cy
  | img, cx, cy, s :: rest =>
    match get_icon_state_frames yaml s.name with
    | .err e => .err e
    | .panicked => .panicked
    | .ok frames_base64 =>
      let expected_frames := s.dirs * s.frames
      let actual_frames := frames_base64.length
      if expected_frames ≠ actual_frames then
        .err (.FrameCountMismatch s.name expected_frames actual_frames)
      else
        match paintStateFrames iw ihgt image_width image_height img cx cy frames_base64 with
        | .ok img2 cx2 cy2 => paintStates yaml iw ihgt image_width image_height img2 cx2 cy2 rest
        | .err e => .err e
        | .panicked => .panicked

/-- `paint_frames` from compile.rs. -/
def paint_frames (yaml : Yaml) (dmi : DreamMakerIconMetadata) (image : Image) : PResult Image :=
  match paintStates yaml dmi.width dmi.height image.width image.height image 0 0 dmi.states with
  | .ok img _ _ => .ok img
  | .err e => .err e
  | .panicked => .panicked

/-- The pure core of `compile` (compile.rs), up to what `write_dmi_file`
receives: read the metadata string from the YAML map, parse it, size the
canvas, paint the frames, and return the zTXt chunk text (exactly
`yaml_metadata`) together with the painted image. File I/O, path handling
and the unused-key warning (stderr only) are outside the embedding. -/
def compile_pure (yaml : Yaml) : PResult (List Char × Image) :=
  match get_string yaml DMI_METADATA_KEY with
  | .err e => .err e
  | .panicked => .panicked
  | .ok yaml_metadata =>
    match parse_metadata yaml_metadata with
    | .err e => .err e
    | .panicked => .panicked
    | .ok dmi_metadata =>
      match get_image_dimensions yaml dmi_metadata with
      | .err e => .err e
      | .panicked => .panicked
      | .ok dims =>
        let image := DynamicImage_new_rgba8 dims.1 dims.2
        match paint_frames yaml dmi_metadata image with
        | .err e => .err e
        | .panicked => .panicked
        | .ok painted => .ok (yaml_metadata, painted)

/-! ## Frame extraction (decompile.rs) -/
/-- The four RGBA channel bytes of a pixel, in push order. -/
def rgbaBytes (p : Rgba) : List Nat := [p.r, p.g, p.b, p.a]

/-- `extract_pixel_data` from decompile.rs: row-major walk over the tile,
`y` outer, `x` inner, four bytes per pixel. -/
def extract_pixel_data (image : Image) (tile_x tile_y tile_width tile_height : Nat) : List Nat :=
  (List.range tile_height).flatMap fun y =>
    (List.range tile_width).flatMap fun x =>
      rgbaBytes (image.get_pixel (tile_x + x) (tile_y + y))

/-- The `for _ in 0..num_frames` loop of `extract_icon_states`: extract
and stringify each frame, advancing the cursor exactly as the paint loop
does. Returns the frame strings and the final cursor. -/
def extractFrames (image : Image) (iw ihgt image_width : Nat) :
    Nat → Nat → Nat → List (List Char) × Nat × Nat
  | 0, cx, cy => ([], cx, cy)
  | n+1, cx, cy =>
    let pixel_data := extract_pixel_data image cx cy iw ihgt
    let pixel_text := stringify_pixel_data pixel_data
    let cx2 := cx + iw
    let next := if cx2 ≥ image_width
      then extractFrames image iw ihgt image_width n 0 (cy + ihgt)
      else extractFrames image iw ihgt image_width n cx2 cy
    (pixel_text :: next.1, next.2)

/-- `Vec::join("\n")`. -/
def joinNewline : List (List Char) → List Char
  | [] => []
  | [f] => f
  | f :: rest => f ++ '\n' :: joinNewline rest

/-- The `for state in &dmi.states` loop of `extract_icon_states`. -/
def extractStates (image : Image) (iw ihgt image_width : Nat) :
    Nat → Nat → List DreamMakerIconState → List (String × Value)
  | _, _, [] => []
  | cx, cy, s :: rest =>
    let r := extractFrames image iw ihgt image_width (s.frames * s.dirs) cx cy
    (s.name, Value.str (joinNewline r.1)) :: extractStates image iw ihgt image_width r.2.1 r.2.2 rest

/-- `extract_icon_states` from decompile.rs. -/
def extract_icon_states (image : Image) (dmi : DreamMakerIconMetadata) : List (String × Value) :=
  extractStates image dmi.width dmi.height image.width 0 0 dmi.states

/-- `decompile_icon` from decompile.rs: build the output index map (path,
dimensions, one entry per icon state, then the metadata text verbatim). -/
def decompile_icon (path : List Char) (image : Image) (text : List Char)
    (dmi : DreamMakerIconMetadata) : Yaml :=
  let data : Yaml := []
  let data := ymInsert data DMI_PATH_KEY (.str path)
  let data := ymInsert data IMAGE_WIDTH_KEY (.num image.width)
  let data := ymInsert data IMAGE_HEIGHT_KEY (.num image.height)
  let data := (extract_icon_states image dmi).foldl (fun d kv => ymInsert d kv.1 kv.2) data
  ymInsert data DMI_METADATA_KEY (.str text)

/-! ## Concrete fixtures -/
/-- A minimal metadata text: one 1x1 state `i` with one dir and one frame. -/
def tMeta : List Char := "# BEGIN DMI\nversion = 4.0\n\twidth = 1\n\theight = 1\nstate = \"i\"\n\tdirs = 1\n\tframes = 1\n# END DMI".data

/-- One encoded 1x1 frame whose RGBA bytes are 9,8,7,6. -/
def tFrame : List Char := stringify_pixel_data [9, 8, 7, 6]

/-- An input index map carrying `tMeta`, a 2x1 declared canvas and the frame `tFrame`. -/
def tYaml : Yaml :=
  [(DMI_METADATA_KEY, .str tMeta), (IMAGE_WIDTH_KEY, .num 2), (IMAGE_HEIGHT_KEY, .num 1),
   ("i", .str tFrame)]

/-- Metadata for the growth-boundary scenario: 32x32 frames, one state `idle`
with 4 dirs and 1 frame. -/
def c4Dmi : DreamMakerIconMetadata :=
  ⟨"4.0", 32, 32, [⟨"idle", none, 4, 1, none, none, none, none⟩]⟩

def c2WitYaml : Yaml := [(IMAGE_WIDTH_KEY, .num 32), (IMAGE_HEIGHT_KEY, .num 32)]

def c2WitDmi : DreamMakerIconMetadata :=
  ⟨"4.0", 32, 32, [⟨"s", none, 1, 1, none, none, none, none⟩]⟩

def c10WitImage : Image := ⟨2, 1, [[⟨1, 2, 3, 4⟩, ⟨5, 6, 7, 8⟩]]⟩

def c9Dmi : DreamMakerIconMetadata := ⟨"4.0", 1, 1, [⟨"i", none, 1, 1, none, none, none, none⟩]⟩

def c9Img : Image := ⟨2, 1, [[⟨9, 8, 7, 6⟩, ⟨0, 0, 0, 0⟩]]⟩

def c8Dmi : DreamMakerIconMetadata := ⟨"4.0", 1, 1, [⟨"idle", none, 4, 1, none, none, none, none⟩]⟩

def c8Yaml : Yaml := [("idle", .str "a\nb\nc".data)]

def c8Img : Image := ⟨1, 1, [[⟨0, 0, 0, 0⟩]]⟩

/-! ## Reachability inside `many0` and the property-loop lemmas -/
/-- The recognized property names of `parse_state`. -/
def recognizedNames : List String :=
  ["delay", "dirs", "frames", "hotspot", "loop", "movement", "rewind"]

/-- An input reachable from `i` by zero or more successful, strictly
consuming applications of the inner parser of a `many0` loop. -/
inductive Many0Reach (p : List Char → NomResult α) : List Char → List Char → Prop where
  | refl (i : List Char) : Many0Reach p i i
  | step {i i1 i2 : List Char} {v : α} (h : p i = .ok i1 v)
      (hlen : i1.length < i.length) (htail : Many0Reach p i1 i2) : Many0Reach p i i2

def c3CexInput : List Char :=
  "# BEGIN DMI\nversion = 4.0\nstate = \"x\"\n\tframes = 1\n# END DMI".data

def c3WitInput : List Char :=
  "# BEGIN DMI\nversion = 4.0\nstate = \"x\"\n\tdirs = 1\n# END DMI".data

def c3WitI1 : List Char := "version = 4.0\nstate = \"x\"\n\tdirs = 1\n# END DMI".data

def c3WitI4 : List Char := "state = \"x\"\n\tdirs = 1\n# END DMI".data

def c3WitJ1 : List Char := "\tdirs = 1\n# END DMI".data

def c3WitJ2 : List Char := "# END DMI".data

def c7WitInput : List Char :=
  "# BEGIN DMI\nversion = 4.0\nstate = \"x\"\n\tdirs = 1\n\tfoo = 1\n# END DMI".data

def c7WitI1 : List Char := "version = 4.0\nstate = \"x\"\n\tdirs = 1\n\tfoo = 1\n# END DMI".data

def c7WitI4 : List Char := "state = \"x\"\n\tdirs = 1\n\tfoo = 1\n# END DMI".data

def c7WitJ1 : List Char := "\tdirs = 1\n\tfoo = 1\n# END DMI".data

def c7WitJ2 : List Char := "# END DMI".data

def c5Frame : List Char := stringify_pixel_data [5, 5, 5]

def c5Img : Image := ⟨2, 1, [[⟨0, 0, 0, 0⟩, ⟨0, 0, 0, 0⟩]]⟩

def c5CexDmi : DreamMakerIconMetadata := ⟨"4.0", 1, 1, [⟨"i", none, 1, 1, none, none, none, none⟩]⟩

def c5CexYaml : Yaml :=
  [(IMAGE_WIDTH_KEY, .num 2), (IMAGE_HEIGHT_KEY, .num 1), ("i", .str c5Frame)]

/-! ## Cursor/slot analysis of the painting loops -/
/-- The raster slot of the `k`-th frame on a canvas `fpr` frames wide
(spec section 3, `FrameSlot`): the deterministic cursor position of the
painting and extraction walks. -/
def frame_slot (fpr iw ihgt k : Nat) : Nat × Nat := (k % fpr * iw, k / fpr * ihgt)

/-- `paintStateFrames` with a ghost trace of the cursor positions at which
frames were successfully painted; `paintStateFramesT_fst` erases the
trace. -/
def paintStateFramesT (iw ihgt W H : Nat) :
    Image → Nat → Nat → List (List Char) → PaintOutcome × List (Nat × Nat)
  | img, cx, cy, [] => (.ok img cx cy, [])
  | img, cx, cy, f :: fs =>
    if cy ≥ H then (.err .TooManyFrames, [])
    else
      match base64_decode f with
      | none => (.err .DecodeError, [])
      | some compressed =>
        match decompress_size_prepended compressed with
        | none => (.err .DecompressError, [])
        | some data =>
          match paintFrame img data cx cy iw ihgt with
          | none => (.panicked, [])
          | some img2 =>
            let r := if cx + iw ≥ W
              then paintStateFramesT iw ihgt W H img2 0 (cy + ihgt) fs
              else paintStateFramesT iw ihgt W H img2 (cx + iw) cy fs
            (r.1, (cx, cy) :: r.2)

/-- `paintStates` with the ghost trace; `paintStatesT_fst` erases it. -/
def paintStatesT (yaml : Yaml) (iw ihgt W H : Nat) :
    Image → Nat → Nat → List DreamMakerIconState → PaintOutcome × List (Nat × Nat)
  | img, cx, cy, [] => (.ok img cx cy, [])
  | img, cx, cy, s :: rest =>
    match get_icon_state_frames yaml s.name with
    | .err e => (.err e, [])
    | .panicked => (.panicked, [])
    | .ok frames_base64 =>
      if s.dirs * s.frames ≠ frames_base64.length then
        (.err (.FrameCountMismatch s.name (s.dirs * s.frames) frames_base64.length), [])
      else
        let r := paintStateFramesT iw ihgt W H img cx cy frames_base64
        match r.1 with
        | .ok img2 cx2 cy2 =>
          let r2 := paintStatesT yaml iw ihgt W H img2 cx2 cy2 rest
          (r2.1, r.2 ++ r2.2)
        | .err e => (.err e, r.2)
        | .panicked => (.panicked, r.2)

/-! ## Claim C4 -/
def c4Frames : List (List Char) :=
  [stringify_pixel_data (List.replicate 4096 1), stringify_pixel_data (List.replicate 4096 2),
   stringify_pixel_data (List.replicate 4096 3), stringify_pixel_data (List.replicate 4096 4)]

def c4Yaml : Yaml :=
  [(IMAGE_WIDTH_KEY, .num 128), (IMAGE_HEIGHT_KEY, .num 32),
   ("idle", .str (joinNewline c4Frames))]

def c6Dmi : DreamMakerIconMetadata := ⟨"4.0", 1, 1, [⟨"i", none, 1, 1, none, none, none, none⟩]⟩

def c6Yaml : Yaml :=
  [(IMAGE_WIDTH_KEY, .num 2), (IMAGE_HEIGHT_KEY, .num 1), ("i", .str "x".data)]

/-! ## Theorems -/

theorem isqrtGo_spec (n : Nat) : ∀ fuel lo hi, lo * lo ≤ n → n < hi * hi → lo < hi →
    hi - lo ≤ fuel →
    isqrtGo n fuel lo hi * isqrtGo n fuel lo hi ≤ n
      ∧ n < (isqrtGo n fuel lo hi + 1) * (isqrtGo n fuel lo hi + 1) := by
  intro fuel
  induction fuel with
  | zero => intro lo hi _ _ hlt hf; omega
  | succ m ih =>
    intro lo hi hlo hhi hlt hf
    simp only [isqrtGo]
    by_cases hmid : (lo + hi) / 2 = lo
    · rw [if_pos hmid]
      have hhi1 : hi = lo + 1 := by omega
      rw [hhi1] at hhi
      exact ⟨hlo, hhi⟩
    · rw [if_neg hmid]
      have h1 : lo < (lo + hi) / 2 := by omega
      have h2 : (lo + hi) / 2 < hi := by omega
      by_cases hsq : (lo + hi) / 2 * ((lo + hi) / 2) ≤ n
      · rw [if_pos hsq]
        exact ih ((lo + hi) / 2) hi hsq hhi h2 (by omega)
      · rw [if_neg hsq]
        exact ih lo ((lo + hi) / 2) hlo (by omega) h1 (by omega)

theorem isqrt_sq_le (n : Nat) : isqrt n * isqrt n ≤ n :=
  (isqrtGo_spec n (n+1) 0 (n+1) (by omega) (by nlinarith) (by omega) (by omega)).1

theorem lt_isqrt_succ_sq (n : Nat) : n < (isqrt n + 1) * (isqrt n + 1) :=
  (isqrtGo_spec n (n+1) 0 (n+1) (by omega) (by nlinarith) (by omega) (by omega)).2

theorem b64Val_b64Char : ∀ v, v < 64 → b64Val (b64Char v) = some v := by decide

theorem b64Char_ne_pad : ∀ v, v < 64 → b64Char v ≠ '=' := by decide

theorem b64Char_ne_newline : ∀ v, v < 64 → b64Char v ≠ '\n' := by decide

theorem base64_encode_no_newline (bs : List Nat) (h : ∀ b ∈ bs, b < 256) :
    ∀ c ∈ base64_encode bs, c ≠ '\n' := by
  induction bs using base64_encode.induct with
  | case1 => simp [base64_encode]
  | case2 b1 =>
    have h1 : b1 < 256 := h b1 (by simp)
    simp only [base64_encode, List.mem_cons, List.not_mem_nil, or_false]
    rintro c (rfl | rfl | rfl | rfl) <;>
      first
        | exact b64Char_ne_newline _ (by omega)
        | decide
  | case3 b1 b2 =>
    have h1 : b1 < 256 := h b1 (by simp)
    have h2 : b2 < 256 := h b2 (by simp)
    simp only [base64_encode, List.mem_cons, List.not_mem_nil, or_false]
    rintro c (rfl | rfl | rfl | rfl) <;>
      first
        | exact b64Char_ne_newline _ (by omega)
        | decide
  | case4 b1 b2 b3 rest ih =>
    have h1 : b1 < 256 := h b1 (by simp)
    have h2 : b2 < 256 := h b2 (by simp)
    have h3 : b3 < 256 := h b3 (by simp)
    have hr : ∀ b ∈ rest, b < 256 := fun b hb => h b (by simp [hb])
    simp only [base64_encode, List.mem_cons]
    rintro c (rfl | rfl | rfl | rfl | hc)
    · exact b64Char_ne_newline _ (by omega)
    · exact b64Char_ne_newline _ (by omega)
    · exact b64Char_ne_newline _ (by omega)
    · exact b64Char_ne_newline _ (by omega)
    · exact ih hr c hc

theorem split16 (x y : Nat) (hx : x < 4) (hy : y < 16) :
    (x * 16 + y) / 16 = x ∧ (x * 16 + y) % 16 = y := by omega

theorem split4 (x y : Nat) (hx : x < 16) (hy : y < 4) :
    (x * 4 + y) / 4 = x ∧ (x * 4 + y) % 4 = y := by omega

theorem base64_decode_encode (bs : List Nat) (h : ∀ b ∈ bs, b < 256) :
    base64_decode (base64_encode bs) = some bs := by
  induction bs using base64_encode.induct with
  | case1 => rfl
  | case2 b1 =>
    have h1 : b1 < 256 := h b1 (by simp)
    have e1 : b64Val (b64Char (b1 / 4)) = some (b1 / 4) := b64Val_b64Char _ (by omega)
    have e2 : b64Val (b64Char (b1 % 4 * 16)) = some (b1 % 4 * 16) := b64Val_b64Char _ (by omega)
    have hm : b1 % 4 * 16 % 16 = 0 := Nat.mul_mod_left _ _
    have hd : b1 % 4 * 16 / 16 = b1 % 4 := by
      rw [Nat.mul_div_assoc _ (Nat.dvd_refl 16), Nat.div_self (by norm_num), Nat.mul_one]
    simp only [base64_encode, base64_decode, e1, e2, hm, hd]
    simp
    omega
  | case3 b1 b2 =>
    have h1 : b1 < 256 := h b1 (by simp)
    have h2 : b2 < 256 := h b2 (by simp)
    have e1 : b64Val (b64Char (b1 / 4)) = some (b1 / 4) := b64Val_b64Char _ (by omega)
    have e2 : b64Val (b64Char (b1 % 4 * 16 + b2 / 16)) = some (b1 % 4 * 16 + b2 / 16) :=
      b64Val_b64Char _ (by omega)
    have e3 : b64Val (b64Char (b2 % 16 * 4)) = some (b2 % 16 * 4) := b64Val_b64Char _ (by omega)
    have n3 : b64Char (b2 % 16 * 4) ≠ '=' := b64Char_ne_pad _ (by omega)
    have q1 : (b1 % 4 * 16 + b2 / 16) / 16 = b1 % 4 :=
      (split16 (b1 % 4) (b2 / 16) (by omega) (by omega)).1
    have q2 : (b1 % 4 * 16 + b2 / 16) % 16 = b2 / 16 :=
      (split16 (b1 % 4) (b2 / 16) (by omega) (by omega)).2
    have q3 : b2 % 16 * 4 % 4 = 0 := Nat.mul_mod_left _ _
    have q4 : b2 % 16 * 4 / 4 = b2 % 16 := by
      rw [Nat.mul_div_assoc _ (Nat.dvd_refl 4), Nat.div_self (by norm_num), Nat.mul_one]
    simp only [base64_encode, base64_decode, e1, e2, e3, if_neg n3, q1, q2, q3, q4]
    simp
    omega
  | case4 b1 b2 b3 rest ih =>
    have h1 : b1 < 256 := h b1 (by simp)
    have h2 : b2 < 256 := h b2 (by simp)
    have h3 : b3 < 256 := h b3 (by simp)
    have hr : ∀ b ∈ rest, b < 256 := fun b hb => h b (by simp [hb])
    have e1 : b64Val (b64Char (b1 / 4)) = some (b1 / 4) := b64Val_b64Char _ (by omega)
    have e2 : b64Val (b64Char (b1 % 4 * 16 + b2 / 16)) = some (b1 % 4 * 16 + b2 / 16) :=
      b64Val_b64Char _ (by omega)
    have e3 : b64Val (b64Char (b2 % 16 * 4 + b3 / 64)) = some (b2 % 16 * 4 + b3 / 64) :=
      b64Val_b64Char _ (by omega)
    have e4 : b64Val (b64Char (b3 % 64)) = some (b3 % 64) := b64Val_b64Char _ (by omega)
    have n3 : b64Char (b2 % 16 * 4 + b3 / 64) ≠ '=' := b64Char_ne_pad _ (by omega)
    have n4 : b64Char (b3 % 64) ≠ '=' := b64Char_ne_pad _ (by omega)
    have q1 : (b1 % 4 * 16 + b2 / 16) / 16 = b1 % 4 :=
      (split16 (b1 % 4) (b2 / 16) (by omega) (by omega)).1
    have q2 : (b1 % 4 * 16 + b2 / 16) % 16 = b2 / 16 :=
      (split16 (b1 % 4) (b2 / 16) (by omega) (by omega)).2
    have q3 : (b2 % 16 * 4 + b3 / 64) / 4 = b2 % 16 :=
      (split4 (b2 % 16) (b3 / 64) (by omega) (by omega)).1
    have q4 : (b2 % 16 * 4 + b3 / 64) % 4 = b3 / 64 :=
      (split4 (b2 % 16) (b3 / 64) (by omega) (by omega)).2
    simp only [base64_encode, base64_decode, e1, e2, e3, e4, if_neg n3, if_neg n4, ih hr,
      q1, q2, q3, q4]
    simp
    refine ⟨by omega, by omega, by omega⟩

theorem lz4ReadExt_spec (q : Nat) :
    ∀ (r acc : Nat) (tail : List Nat), r < 255 →
      lz4ReadExt (List.replicate q 255 ++ r :: tail) acc = some (acc + (255 * q + r), tail) := by
  induction q with
  | zero =>
    intro r acc tail hr
    simp only [List.replicate, List.nil_append, lz4ReadExt]
    rw [if_neg (by omega)]
    congr 2
    omega
  | succ m ih =>
    intro r acc tail hr
    rw [List.replicate_succ, List.cons_append, lz4ReadExt, if_pos rfl,
      ih r (acc + 255) tail hr]
    congr 2
    ring

theorem lz4_decompress_compress (data : List Nat) :
    lz4_decompress (lz4_compress data) = some data := by
  rcases Nat.lt_or_ge data.length 15 with hlt | hge
  · have ht : data.length * 16 / 16 = data.length := by
      rw [Nat.mul_div_assoc _ (Nat.dvd_refl 16), Nat.div_self (by norm_num), Nat.mul_one]
    simp only [lz4_decompress, lz4_compress, if_pos hlt, List.length_cons, lz4DecLoop,
      lz4ReadLen, ht]
    rw [if_neg (by omega)]
    simp [List.take_length, List.drop_length]
  · have hq : (data.length - 15) % 255 < 255 := Nat.mod_lt _ (by norm_num)
    have hext := lz4ReadExt_spec ((data.length - 15) / 255) ((data.length - 15) % 255) 15
      data hq
    have hlen : 15 + (255 * ((data.length - 15) / 255) + (data.length - 15) % 255)
        = data.length := by omega
    rw [hlen] at hext
    have hcomp : lz4_compress data
        = 240 :: (List.replicate ((data.length - 15) / 255) 255
            ++ ((data.length - 15) % 255) :: data) := by
      simp only [lz4_compress, if_neg (by omega : ¬ data.length < 15), lz4ExtBytes]
      simp
    rw [lz4_decompress, hcomp]
    simp only [List.length_cons, lz4DecLoop]
    have h240 : (240 : Nat) / 16 = 15 := by norm_num
    rw [h240, lz4ReadLen, if_pos rfl, hext]
    simp

theorem u32le_read (n : Nat) (h : n < 4294967296) :
    readU32le (n % 256) (n / 256 % 256) (n / 65536 % 256) (n / 16777216 % 256) = n := by
  simp only [readU32le]
  omega

theorem compress_bytes_lt (data : List Nat) (h : ∀ b ∈ data, b < 256) :
    ∀ b ∈ compress_prepend_size data, b < 256 := by
  intro b hb
  rw [compress_prepend_size] at hb
  rcases List.mem_append.mp hb with h1 | h2
  · simp only [u32le, List.mem_cons, List.not_mem_nil, or_false] at h1
    rcases h1 with rfl | rfl | rfl | rfl <;> omega
  · rw [lz4_compress] at h2
    split at h2
    · rcases List.mem_cons.mp h2 with rfl | hc
      · omega
      · exact h b hc
    · rcases List.mem_cons.mp h2 with rfl | hc
      · omega
      · rcases List.mem_append.mp hc with he | hd
        · simp only [lz4ExtBytes] at he
          rcases List.mem_append.mp he with hrep | hstar
          · have := List.eq_of_mem_replicate hrep
            omega
          · simp only [List.mem_singleton] at hstar
            omega
        · exact h b hd

theorem decompress_size_prepended_compress (data : List Nat)
    (hlen : data.length < 4294967296) :
    decompress_size_prepended (compress_prepend_size data) = some data := by
  rw [compress_prepend_size]
  simp only [u32le, List.cons_append, List.nil_append, decompress_size_prepended,
    lz4_decompress_compress]
  rw [if_pos (u32le_read data.length hlen).symm]

theorem decode_frame_stringify (data : List Nat) (hb : ∀ b ∈ data, b < 256)
    (hlen : data.length < 4294967296) :
    decode_frame (stringify_pixel_data data) = some data := by
  rw [decode_frame, stringify_pixel_data,
    base64_decode_encode _ (compress_bytes_lt data hb)]
  simp only [Option.bind_eq_bind, Option.some_bind]
  exact decompress_size_prepended_compress data hlen

/-! ## Canvas growth capacity -/
theorem mul_div_cancel_self (a d : Nat) (hd : 0 < d) : a * d / d = a := by
  rw [Nat.mul_div_assoc a (Nat.dvd_refl d), Nat.div_self hd, Nat.mul_one]

theorem grow_capacity (iw ihgt needed : Nat) (hw : 1 ≤ iw) (hh : 1 ≤ ihgt) :
    needed < (grow_dimensions iw ihgt needed).1 / iw
      * ((grow_dimensions iw ihgt needed).2 / ihgt) := by
  simp only [grow_dimensions]
  rw [mul_div_cancel_self (isqrt (iw * ihgt * needed) / iw + 1) iw (by omega),
    mul_div_cancel_self (needed / (isqrt (iw * ihgt * needed) / iw + 1) + 1) ihgt (by omega)]
  have hfpr : 0 < isqrt (iw * ihgt * needed) / iw + 1 := Nat.succ_pos _
  have hdm := Nat.div_add_mod needed (isqrt (iw * ihgt * needed) / iw + 1)
  have hmod := Nat.mod_lt needed hfpr
  nlinarith [hdm, hmod]

/-- Claim C1: for every RGBA pixel buffer `B` of the frame size
`frame_width * frame_height * 4` (byte values below 256, length
representable as `u32`), decoding the transport string produced by
encoding `B` (lz4 compression with prepended size, then standard-alphabet
base64, i.e. `stringify_pixel_data`) via base64 decode followed by
size-prepended decompression yields exactly `B`, byte for byte. -/
theorem C1_frame_codec_roundtrip (frame_width frame_height : Nat) (B : List Nat)
    (hlen : B.length = frame_width * frame_height * 4)
    (hbytes : ∀ b ∈ B, b < 256) (hsize : B.length < 4294967296) :
    decode_frame (stringify_pixel_data B) = some B :=
  decode_frame_stringify B hbytes hsize

theorem C1_witness :
    ([9, 8, 7, 6] : List Nat).length = 1 * 1 * 4
      ∧ decode_frame (stringify_pixel_data [9, 8, 7, 6]) = some [9, 8, 7, 6] :=
  ⟨rfl, C1_frame_codec_roundtrip 1 1 [9, 8, 7, 6] rfl (by decide) (by decide)⟩

/-- Claim C2: for every list of states and frame size at least 1, whenever
`frames_needed ≥ frames_available` (equality included), the canvas is
regrown by the closed-form computation `grow_dimensions` (steps a-f of the
layout algorithm, subject only to the final 1024 sanity check), and the
regrown canvas's frame capacity `(new_width / frame_width) *
(new_height / frame_height)` is strictly greater than `frames_needed`. -/
theorem C2_growth_boundary (yaml : Yaml) (dmi : DreamMakerIconMetadata) (dW dH : Nat)
    (hW : get_u32 yaml IMAGE_WIDTH_KEY = .ok dW)
    (hH : get_u32 yaml IMAGE_HEIGHT_KEY = .ok dH)
    (hfw : 1 ≤ dmi.width) (hfh : 1 ≤ dmi.height)
    (htrig : frames_needed dmi.states ≥ dW / dmi.width * (dH / dmi.height)) :
    get_image_dimensions yaml dmi
      = (if (grow_dimensions dmi.width dmi.height (frames_needed dmi.states)).1 > 1024
            ∨ (grow_dimensions dmi.width dmi.height (frames_needed dmi.states)).2 > 1024
         then .err (.TooManyIconStates
            (grow_dimensions dmi.width dmi.height (frames_needed dmi.states)).1
            (grow_dimensions dmi.width dmi.height (frames_needed dmi.states)).2)
         else .ok (grow_dimensions dmi.width dmi.height (frames_needed dmi.states)))
      ∧ frames_needed dmi.states
          < (grow_dimensions dmi.width dmi.height (frames_needed dmi.states)).1 / dmi.width
            * ((grow_dimensions dmi.width dmi.height (frames_needed dmi.states)).2 / dmi.height) := by
  constructor
  · simp only [get_image_dimensions, hW, hH]
    rw [if_neg (by omega), if_pos htrig]
  · exact grow_capacity dmi.width dmi.height (frames_needed dmi.states) hfw hfh

theorem C2_witness :
    frames_needed c2WitDmi.states ≥ 32 / c2WitDmi.width * (32 / c2WitDmi.height)
      ∧ (get_image_dimensions c2WitYaml c2WitDmi
          = (if (grow_dimensions c2WitDmi.width c2WitDmi.height (frames_needed c2WitDmi.states)).1 > 1024
                ∨ (grow_dimensions c2WitDmi.width c2WitDmi.height (frames_needed c2WitDmi.states)).2 > 1024
             then .err (.TooManyIconStates
                (grow_dimensions c2WitDmi.width c2WitDmi.height (frames_needed c2WitDmi.states)).1
                (grow_dimensions c2WitDmi.width c2WitDmi.height (frames_needed c2WitDmi.states)).2)
             else .ok (grow_dimensions c2WitDmi.width c2WitDmi.height (frames_needed c2WitDmi.states)))
          ∧ frames_needed c2WitDmi.states
              < (grow_dimensions c2WitDmi.width c2WitDmi.height (frames_needed c2WitDmi.states)).1 / c2WitDmi.width
                * ((grow_dimensions c2WitDmi.width c2WitDmi.height (frames_needed c2WitDmi.states)).2 / c2WitDmi.height)) :=
  ⟨by decide,
    C2_growth_boundary c2WitYaml c2WitDmi 32 32 (by decide) (by decide) (by decide) (by decide)
      (by decide)⟩

/-! ## Row-major indexing of `extract_pixel_data` -/
theorem flatMap_const_len {α : Type} (f : Nat → List α) (c : Nat)
    (hf : ∀ j, (f j).length = c) : ∀ n, ((List.range n).flatMap f).length = n * c := by
  intro n
  induction n with
  | zero => simp
  | succ m ih =>
    rw [List.range_succ, List.flatMap_append, List.length_append, ih]
    simp [hf m, Nat.succ_mul]

theorem flatMap_const_get {α : Type} (f : Nat → List α) (c : Nat)
    (hf : ∀ j, (f j).length = c) : ∀ n j k, j < n → k < c →
    ((List.range n).flatMap f)[j * c + k]? = (f j)[k]? := by
  intro n
  induction n with
  | zero => intro j k hj _; omega
  | succ m ih =>
    intro j k hj hk
    rw [List.range_succ, List.flatMap_append]
    rcases Nat.lt_or_ge j m with hlt | hge
    · have hb : j * c + k < ((List.range m).flatMap f).length := by
        rw [flatMap_const_len f c hf m]
        have hstep : (j + 1) * c ≤ m * c := Nat.mul_le_mul_right c (by omega)
        nlinarith
      rw [List.getElem?_append_left hb]
      exact ih j k hlt hk
    · have hj1 : j = m := by omega
      subst hj1
      rw [List.getElem?_append_right (by rw [flatMap_const_len f c hf j]; omega)]
      rw [flatMap_const_len f c hf j]
      simp only [List.flatMap_cons, List.flatMap_nil, List.append_nil]
      congr 1
      omega

/-- Claim C10: for every tile position fully inside the image,
`extract_pixel_data` returns a buffer of exactly
`tile_width * tile_height * 4` bytes, laid out row-major with `y` outer and
`x` inner and 4 RGBA bytes per pixel: the byte at index
`(y * tile_width + x) * 4 + i` is channel `i` of the pixel at
`(tile_x + x, tile_y + y)`. In particular every frame the unpacker hands to
the encoder has exactly the length the encoder expects. -/
theorem C10_extract_layout (image : Image) (tile_x tile_y tile_width tile_height x y i : Nat)
    (hbx : tile_x + tile_width ≤ image.width) (hby : tile_y + tile_height ≤ image.height)
    (hx : x < tile_width) (hy : y < tile_height) (hi : i < 4) :
    (extract_pixel_data image tile_x tile_y tile_width tile_height).length
        = tile_width * tile_height * 4
      ∧ (extract_pixel_data image tile_x tile_y tile_width tile_height)[(y * tile_width + x) * 4 + i]?
        = (rgbaBytes (image.get_pixel (tile_x + x) (tile_y + y)))[i]? := by
  have hrow : ∀ j, ((List.range tile_width).flatMap
      (fun x2 => rgbaBytes (image.get_pixel (tile_x + x2) (tile_y + j)))).length
        = tile_width * 4 := by
    intro j
    exact flatMap_const_len
      (fun x2 => rgbaBytes (image.get_pixel (tile_x + x2) (tile_y + j))) 4 (fun _ => rfl)
      tile_width
  constructor
  · rw [extract_pixel_data, flatMap_const_len _ (tile_width * 4) hrow tile_height]
    ring
  · rw [extract_pixel_data]
    have hidx : (y * tile_width + x) * 4 + i = y * (tile_width * 4) + (x * 4 + i) := by ring
    rw [hidx, flatMap_const_get _ (tile_width * 4) hrow tile_height y (x * 4 + i) hy (by omega),
      flatMap_const_get
        (fun x2 => rgbaBytes (image.get_pixel (tile_x + x2) (tile_y + y))) 4 (fun _ => rfl)
        tile_width x i hx hi]

theorem C10_witness :
    (extract_pixel_data c10WitImage 1 0 1 1).length = 1 * 1 * 4
      ∧ (extract_pixel_data c10WitImage 1 0 1 1)[(0 * 1 + 0) * 4 + 2]?
        = (rgbaBytes (c10WitImage.get_pixel (1 + 0) (0 + 0)))[2]? :=
  C10_extract_layout c10WitImage 1 0 1 1 0 0 2 (by decide) (by decide) (by decide) (by decide)
    (by decide)

/-! ## Metadata pass-through (C9) and frame-count check (C8) -/
theorem ymGet_insert (m : Yaml) (k : String) (v : Value) :
    ymGet (ymInsert m k v) k = some v := by
  induction m with
  | nil => simp [ymInsert, ymGet]
  | cons kv rest ih =>
    obtain ⟨k1, v1⟩ := kv
    by_cases hk : k1 = k
    · simp [ymInsert, hk, ymGet]
    · simp [ymInsert, hk, ymGet, ih]

/-- Claim C9: the metadata text passes through both conversion directions
verbatim. `decompile_icon` stores under the metadata key exactly the string
read from the image's text chunk, and the compile pass hands
`write_dmi_file` (the zTXt chunk of the output image) exactly the metadata
string stored under the metadata key of the input container; neither
direction re-renders or normalizes the metadata. -/
theorem C9_metadata_verbatim (path : List Char) (image : Image) (text : List Char)
    (dmi : DreamMakerIconMetadata) (yaml : Yaml) (ztxt : List Char) (painted : Image)
    (hc : compile_pure yaml = .ok (ztxt, painted)) :
    ymGet (decompile_icon path image text dmi) DMI_METADATA_KEY = some (.str text)
      ∧ get_string yaml DMI_METADATA_KEY = .ok ztxt := by
  constructor
  · rw [decompile_icon]
    exact ymGet_insert _ _ _
  · rw [compile_pure] at hc
    cases hgs : get_string yaml DMI_METADATA_KEY with
    | err e => simp [hgs] at hc
    | panicked => simp [hgs] at hc
    | ok s =>
      simp only [hgs] at hc
      cases hpm : parse_metadata s with
      | err e => simp [hpm] at hc
      | panicked => simp [hpm] at hc
      | ok dmi2 =>
        simp only [hpm] at hc
        cases hgd : get_image_dimensions yaml dmi2 with
        | err e => simp [hgd] at hc
        | panicked => simp [hgd] at hc
        | ok dims =>
          simp only [hgd] at hc
          cases hpf : paint_frames yaml dmi2 (DynamicImage_new_rgba8 dims.1 dims.2) with
          | err e => simp [hpf] at hc
          | panicked => simp [hpf] at hc
          | ok painted2 =>
            simp only [hpf, PResult.ok.injEq, Prod.mk.injEq] at hc
            rw [hc.1]

theorem C9_witness :
    compile_pure tYaml = .ok (tMeta, c9Img)
      ∧ (ymGet (decompile_icon "p.dmi".data c9Img tMeta c9Dmi) DMI_METADATA_KEY
            = some (.str tMeta)
          ∧ get_string tYaml DMI_METADATA_KEY = .ok tMeta) :=
  ⟨by decide,
    C9_metadata_verbatim "p.dmi".data c9Img tMeta c9Dmi tYaml tMeta c9Img (by decide)⟩

theorem paintStates_append (yaml : Yaml) (iw ihgt W H : Nat)
    (l1 l2 : List DreamMakerIconState) :
    ∀ img cx cy, paintStates yaml iw ihgt W H img cx cy (l1 ++ l2)
      = match paintStates yaml iw ihgt W H img cx cy l1 with
        | .ok img2 cx2 cy2 => paintStates yaml iw ihgt W H img2 cx2 cy2 l2
        | .err e => .err e
        | .panicked => .panicked := by
  induction l1 with
  | nil => intro img cx cy; rfl
  | cons st rest ih =>
    intro img cx cy
    simp only [List.cons_append, paintStates]
    cases hg : get_icon_state_frames yaml st.name with
    | err e => rfl
    | panicked => rfl
    | ok fs =>
      dsimp only
      by_cases hm : st.dirs * st.frames ≠ fs.length
      · simp only [if_pos hm]
      · simp only [if_neg hm]
        cases hps : paintStateFrames iw ihgt W H img cx cy fs with
        | ok img2 cx2 cy2 => dsimp only; exact ih img2 cx2 cy2
        | err e => rfl
        | panicked => rfl

/-- Claim C8: for every state whose supplied newline-separated transport
strings differ in number from `dirs * frames`, once painting reaches that
state (every earlier state painted successfully), `paint_frames` — and with
it the compile pass — fails before painting that state's frames, with a
`FrameCountMismatch` error carrying the state's name, the expected count
`dirs * frames` and the actual count of supplied strings. -/
theorem C8_frame_count_mismatch (yaml : Yaml) (dmi : DreamMakerIconMetadata) (image : Image)
    (pre post : List DreamMakerIconState) (s : DreamMakerIconState)
    (img1 : Image) (cx1 cy1 : Nat) (fs : List (List Char))
    (hsplit : dmi.states = pre ++ s :: post)
    (hpre : paintStates yaml dmi.width dmi.height image.width image.height image 0 0 pre
        = .ok img1 cx1 cy1)
    (hget : get_icon_state_frames yaml s.name = .ok fs)
    (hmis : s.dirs * s.frames ≠ fs.length) :
    paint_frames yaml dmi image
      = .err (.FrameCountMismatch s.name (s.dirs * s.frames) fs.length) := by
  rw [paint_frames, hsplit, paintStates_append, hpre]
  simp only [paintStates, hget]
  rw [if_pos hmis]

theorem C8_witness :
    c8Dmi.states = [] ++ ⟨"idle", none, 4, 1, none, none, none, none⟩ :: []
      ∧ get_icon_state_frames c8Yaml "idle" = .ok ["a".data, "b".data, "c".data]
      ∧ paint_frames c8Yaml c8Dmi c8Img = .err (.FrameCountMismatch "idle" 4 3) := by
  refine ⟨by decide, by decide, ?_⟩
  have h := C8_frame_count_mismatch c8Yaml c8Dmi c8Img []
    [] ⟨"idle", none, 4, 1, none, none, none, none⟩ c8Img 0 0 ["a".data, "b".data, "c".data]
    (by decide) (by decide) (by decide) (by decide)
  exact h

theorem many0Loop_panic {α : Type} (p : List Char → NomResult α) {i0 i1 : List Char}
    (hreach : Many0Reach p i0 i1) (hp : p i1 = .panicked) :
    ∀ fuel, i0.length < fuel → many0Loop p fuel i0 = .panicked := by
  induction hreach with
  | refl i =>
    intro fuel hf
    cases fuel with
    | zero => omega
    | succ f => simp only [many0Loop, hp]
  | step h hlen htail ih =>
    intro fuel hf
    cases fuel with
    | zero => omega
    | succ f =>
      rename_i i i1' i2' v
      simp only [many0Loop, h]
      rw [if_neg (by omega), ih hp f (by omega)]
      rfl

theorem many0Loop_fail {α : Type} (p : List Char → NomResult α) {i0 i1 : List Char}
    (hreach : Many0Reach p i0 i1) (hp : p i1 = .fail) :
    ∀ fuel, i0.length < fuel → ∃ vs, many0Loop p fuel i0 = .ok i1 vs := by
  induction hreach with
  | refl i =>
    intro fuel hf
    cases fuel with
    | zero => omega
    | succ f => exact ⟨[], by simp only [many0Loop, hp]⟩
  | step h hlen htail ih =>
    intro fuel hf
    cases fuel with
    | zero => omega
    | succ f =>
      rename_i i i1' i2' v
      obtain ⟨vs, hvs⟩ := ih hp f (by omega)
      refine ⟨v :: vs, ?_⟩
      simp only [many0Loop, h]
      rw [if_neg (by omega), hvs]
      rfl

theorem stateLoop_missing_panic (rest : List Char) (name : String) :
    ∀ (props : List DreamMakerIconStateProperty) (acc : StateAcc),
      (∀ p ∈ props, p.name ∈ recognizedNames) →
      ((acc.dirs = none ∧ ∀ p ∈ props, p.name ≠ "dirs")
        ∨ (acc.frames = none ∧ ∀ p ∈ props, p.name ≠ "frames")) →
      stateLoop rest name acc props = .panicked := by
  intro props
  induction props with
  | nil =>
    intro acc hrec hmiss
    rcases hmiss with ⟨hd, _⟩ | ⟨hf, _⟩
    · cases hacc : acc.frames <;> simp [stateLoop, hd, hacc]
    · cases hacc : acc.dirs <;> simp [stateLoop, hf, hacc]
  | cons p ps ih =>
    intro acc hrec hmiss
    have hp := hrec p (by simp)
    have hrec2 : ∀ q ∈ ps, q.name ∈ recognizedNames := fun q hq => hrec q (by simp [hq])
    simp only [recognizedNames, List.mem_cons, List.not_mem_nil, or_false] at hp
    have hmiss2 : (∀ q ∈ ps, q.name ≠ "dirs") ∨ True := by
      rcases hmiss with ⟨_, hall⟩ | _
      · exact Or.inl (fun q hq => hall q (by simp [hq]))
      · exact Or.inr trivial
    rcases hp with hn | hn | hn | hn | hn | hn | hn
    · rcases hmiss with ⟨hd, hall⟩ | ⟨hf, hall⟩
      · simp only [stateLoop, hn]
        norm_num
        exact ih _ hrec2 (Or.inl ⟨hd, fun q hq => hall q (by simp [hq])⟩)
      · simp only [stateLoop, hn]
        norm_num
        exact ih _ hrec2 (Or.inr ⟨hf, fun q hq => hall q (by simp [hq])⟩)
    · rcases hmiss with ⟨hd, hall⟩ | ⟨hf, hall⟩
      · exact absurd hn (hall p (by simp))
      · simp only [stateLoop, hn]
        norm_num
        cases hparse : rust_parse_u32 p.value.data with
        | none => rfl
        | some n => exact ih _ hrec2 (Or.inr ⟨hf, fun q hq => hall q (by simp [hq])⟩)
    · rcases hmiss with ⟨hd, hall⟩ | ⟨hf, hall⟩
      · simp only [stateLoop, hn]
        norm_num
        cases hparse : rust_parse_u32 p.value.data with
        | none => rfl
        | some n => exact ih _ hrec2 (Or.inl ⟨hd, fun q hq => hall q (by simp [hq])⟩)
      · exact absurd hn (hall p (by simp))
    · rcases hmiss with ⟨hd, hall⟩ | ⟨hf, hall⟩
      · simp only [stateLoop, hn]
        norm_num
        exact ih _ hrec2 (Or.inl ⟨hd, fun q hq => hall q (by simp [hq])⟩)
      · simp only [stateLoop, hn]
        norm_num
        exact ih _ hrec2 (Or.inr ⟨hf, fun q hq => hall q (by simp [hq])⟩)
    · rcases hmiss with ⟨hd, hall⟩ | ⟨hf, hall⟩
      · simp only [stateLoop, hn]
        norm_num
        exact ih _ hrec2 (Or.inl ⟨hd, fun q hq => hall q (by simp [hq])⟩)
      · simp only [stateLoop, hn]
        norm_num
        exact ih _ hrec2 (Or.inr ⟨hf, fun q hq => hall q (by simp [hq])⟩)
    · rcases hmiss with ⟨hd, hall⟩ | ⟨hf, hall⟩
      · simp only [stateLoop, hn]
        norm_num
        exact ih _ hrec2 (Or.inl ⟨hd, fun q hq => hall q (by simp [hq])⟩)
      · simp only [stateLoop, hn]
        norm_num
        exact ih _ hrec2 (Or.inr ⟨hf, fun q hq => hall q (by simp [hq])⟩)
    · rcases hmiss with ⟨hd, hall⟩ | ⟨hf, hall⟩
      · simp only [stateLoop, hn]
        norm_num
        exact ih _ hrec2 (Or.inl ⟨hd, fun q hq => hall q (by simp [hq])⟩)
      · simp only [stateLoop, hn]
        norm_num
        exact ih _ hrec2 (Or.inr ⟨hf, fun q hq => hall q (by simp [hq])⟩)

theorem stateLoop_unknown_fail (rest : List Char) (name : String) :
    ∀ (pre : List DreamMakerIconStateProperty) (q : DreamMakerIconStateProperty)
      (post : List DreamMakerIconStateProperty) (acc : StateAcc),
      q.name ∉ recognizedNames →
      (∀ p ∈ pre, (p.name = "dirs" ∨ p.name = "frames") → rust_parse_u32 p.value.data ≠ none) →
      stateLoop rest name acc (pre ++ q :: post) = .fail := by
  intro pre
  induction pre with
  | nil =>
    intro q post acc hq hpre
    simp only [recognizedNames, List.mem_cons, List.not_mem_nil, or_false, not_or] at hq
    obtain ⟨h1, h2, h3, h4, h5, h6, h7⟩ := hq
    simp only [List.nil_append, stateLoop, h1, h2, h3, h4, h5, h6, h7]
    norm_num
  | cons p ps ih =>
    intro q post acc hq hpre
    have hps : ∀ r ∈ ps, (r.name = "dirs" ∨ r.name = "frames") → rust_parse_u32 r.value.data ≠ none :=
      fun r hr => hpre r (by simp [hr])
    by_cases hn1 : p.name = "delay"
    · simp only [List.cons_append, stateLoop, hn1]
      norm_num
      exact ih q post _ hq hps
    · by_cases hn2 : p.name = "dirs"
      · have hv := hpre p (by simp) (Or.inl hn2)
        obtain ⟨n, hn⟩ := Option.ne_none_iff_exists.mp hv
        simp only [List.cons_append, stateLoop, hn2]
        norm_num
        rw [← hn]
        exact ih q post _ hq hps
      · by_cases hn3 : p.name = "frames"
        · have hv := hpre p (by simp) (Or.inr hn3)
          obtain ⟨n, hn⟩ := Option.ne_none_iff_exists.mp hv
          simp only [List.cons_append, stateLoop, hn3]
          norm_num
          rw [← hn]
          exact ih q post _ hq hps
        · by_cases hn4 : p.name = "hotspot"
          · simp only [List.cons_append, stateLoop, hn4]
            norm_num
            exact ih q post _ hq hps
          · by_cases hn5 : p.name = "loop"
            · simp only [List.cons_append, stateLoop, hn5]
              norm_num
              exact ih q post _ hq hps
            · by_cases hn6 : p.name = "movement"
              · simp only [List.cons_append, stateLoop, hn6]
                norm_num
                exact ih q post _ hq hps
              · by_cases hn7 : p.name = "rewind"
                · simp only [List.cons_append, stateLoop, hn7]
                  norm_num
                  exact ih q post _ hq hps
                · simp only [List.cons_append, stateLoop,
                    if_neg hn1, if_neg hn2, if_neg hn3, if_neg hn4, if_neg hn5, if_neg hn6,
                    if_neg hn7]

theorem parse_state_eq (input i1 i2 : List Char) (name : String)
    (props : List DreamMakerIconStateProperty)
    (hname : parse_state_name input = .ok i1 name)
    (hprops : parse_state_properties i1 = .ok i2 props) :
    parse_state input = stateLoop i2 name StateAcc.init props := by
  simp only [parse_state, hname, NomResult.andThen, hprops]

theorem parse_metadata_of_states_panicked (input i1 i2 i3 i4 : List Char)
    (ver : String) (w h : Nat)
    (hbegin : ws (tagP "# BEGIN DMI".data) input = .ok i1 ())
    (hver : parse_version i1 = .ok i2 ver)
    (hw : parse_optional_width i2 = .ok i3 w)
    (hh : parse_optional_height i3 = .ok i4 h)
    (hstates : parse_states i4 = .panicked) :
    parse_metadata input = .panicked := by
  simp only [parse_metadata, nomify_metadata, hbegin, NomResult.andThen, hver, hw, hh, hstates]

theorem parse_metadata_of_end_fail (input i1 i2 i3 i4 i5 : List Char)
    (ver : String) (w h : Nat) (sts : List DreamMakerIconState)
    (hbegin : ws (tagP "# BEGIN DMI".data) input = .ok i1 ())
    (hver : parse_version i1 = .ok i2 ver)
    (hw : parse_optional_width i2 = .ok i3 w)
    (hh : parse_optional_height i3 = .ok i4 h)
    (hstates : parse_states i4 = .ok i5 sts)
    (hend : ws (tagP "# END DMI".data) i5 = .fail) :
    parse_metadata input = .err .ParseError := by
  simp only [parse_metadata, nomify_metadata, hbegin, NomResult.andThen, hver, hw, hh, hstates,
    hend]

theorem tagP_ok (pat input rest : List Char) (v : Unit) (h : tagP pat input = .ok rest v) :
    input = pat ++ rest := by
  rw [tagP] at h
  split at h
  · rename_i hpre
    obtain ⟨t, ht⟩ := List.isPrefixOf_iff_prefix.mp hpre
    obtain ⟨ht2, -⟩ : input.drop pat.length = rest ∧ v = v := by
      cases h
      exact ⟨rfl, rfl⟩
    rw [← ht2, ← ht, List.drop_left]
  · exact absurd h (by simp)

theorem parse_state_name_shape (input i1 : List Char) (name : String)
    (h : parse_state_name input = .ok i1 name) :
    ∃ r, input = "state = ".data ++ r := by
  rw [parse_state_name] at h
  cases htag : tagP "state = ".data input with
  | ok r v => exact ⟨r, tagP_ok _ _ _ _ htag⟩
  | fail => rw [htag] at h; exact absurd h (by simp [NomResult.andThen])
  | incomplete => rw [htag] at h; exact absurd h (by simp [NomResult.andThen])
  | panicked => rw [htag] at h; exact absurd h (by simp [NomResult.andThen])

theorem ws_end_fail_on_state (r : List Char) :
    ws (tagP "# END DMI".data) ("state = ".data ++ r) = .fail := by
  have h1 : "state = ".data ++ r = 's' :: ("tate = ".data ++ r) := rfl
  rw [h1]
  have h2 : multispace0 ('s' :: ("tate = ".data ++ r)) = 's' :: ("tate = ".data ++ r) := by
    rw [multispace0, List.dropWhile_cons]
    have hs : isMultispace 's' = false := rfl
    rw [hs]
    norm_num
  have h3 : tagP "# END DMI".data ('s' :: ("tate = ".data ++ r)) = .fail := by
    have h0 : "# END DMI".data = '#' :: " END DMI".data := rfl
    rw [tagP, h0]
    have hp : List.isPrefixOf ('#' :: " END DMI".data) ('s' :: ("tate = ".data ++ r)) = false := by
      simp [List.isPrefixOf]
    rw [hp]
    norm_num
  rw [ws, h2, h3]

/-- Claim C3 (amended): when a state block whose properties are all
recognized lacks a `dirs` property (or lacks a `frames` property),
`parse_metadata` does not return a missing-required-field `Err`: it panics
(`unwrap()` on `None` in `parse_state`). The hypotheses walk
`nomify_metadata` to the offending state block. -/
theorem C3_missing_required_panics (input i1 i2 i3 i4 j j1 j2 : List Char)
    (ver : String) (w h : Nat) (nm : String) (props : List DreamMakerIconStateProperty)
    (hbegin : ws (tagP "# BEGIN DMI".data) input = .ok i1 ())
    (hver : parse_version i1 = .ok i2 ver)
    (hw : parse_optional_width i2 = .ok i3 w)
    (hh : parse_optional_height i3 = .ok i4 h)
    (hreach : Many0Reach parse_state i4 j)
    (hname : parse_state_name j = .ok j1 nm)
    (hprops : parse_state_properties j1 = .ok j2 props)
    (hrec : ∀ p ∈ props, p.name ∈ recognizedNames)
    (hmiss : (∀ p ∈ props, p.name ≠ "dirs") ∨ (∀ p ∈ props, p.name ≠ "frames")) :
    parse_metadata input = .panicked := by
  have hps : parse_state j = .panicked := by
    rw [parse_state_eq j j1 j2 nm props hname hprops]
    apply stateLoop_missing_panic j2 nm props StateAcc.init hrec
    rcases hmiss with hm | hm
    · exact Or.inl ⟨rfl, hm⟩
    · exact Or.inr ⟨rfl, hm⟩
  have hstates : parse_states i4 = .panicked := by
    rw [parse_states, many0]
    exact many0Loop_panic parse_state hreach hps _ (by omega)
  exact parse_metadata_of_states_panicked input i1 i2 i3 i4 ver w h hbegin hver hw hh hstates

/-- Claim C3 counterexample: a well-formed document whose single state has
`frames` but no `dirs` makes `parse_metadata` panic — not return an `Err`
as the claim states. -/
theorem C3_counterexample : parse_metadata c3CexInput = .panicked := by decide

theorem C3_witness :
    parse_state_name c3WitI4 = .ok c3WitJ1 "x"
      ∧ parse_state_properties c3WitJ1 = .ok c3WitJ2 [⟨"dirs", "1"⟩]
      ∧ parse_metadata c3WitInput = .panicked :=
  ⟨by decide, by decide,
    C3_missing_required_panics c3WitInput c3WitI1 c3WitI4 c3WitI4 c3WitI4 c3WitI4 c3WitJ1 c3WitJ2
      "4.0" 32 32 "x" [⟨"dirs", "1"⟩]
      (by decide) (by decide) (by decide) (by decide) (Many0Reach.refl _)
      (by decide) (by decide) (by decide) (Or.inr (by decide))⟩

/-- Claim C7: a metadata text in which some state block contains a property
whose name is outside the recognized set (delay, dirs, frames, hotspot,
loop, movement, rewind) makes `parse_metadata` fail with a parse error,
even if every other part of the document is well-formed. The hypotheses
walk `nomify_metadata` to the offending state block; earlier properties of
that block must not panic first (numeric `dirs`/`frames` values). -/
theorem C7_unknown_property_fails (input i1 i2 i3 i4 j j1 j2 : List Char)
    (ver nm : String) (w h : Nat)
    (pre post : List DreamMakerIconStateProperty) (q : DreamMakerIconStateProperty)
    (hbegin : ws (tagP "# BEGIN DMI".data) input = .ok i1 ())
    (hver : parse_version i1 = .ok i2 ver)
    (hw : parse_optional_width i2 = .ok i3 w)
    (hh : parse_optional_height i3 = .ok i4 h)
    (hreach : Many0Reach parse_state i4 j)
    (hname : parse_state_name j = .ok j1 nm)
    (hprops : parse_state_properties j1 = .ok j2 (pre ++ q :: post))
    (hq : q.name ∉ recognizedNames)
    (hpre : ∀ p ∈ pre, (p.name = "dirs" ∨ p.name = "frames") → rust_parse_u32 p.value.data ≠ none) :
    parse_metadata input = .err .ParseError := by
  have hfail : parse_state j = .fail := by
    rw [parse_state_eq j j1 j2 nm (pre ++ q :: post) hname hprops]
    exact stateLoop_unknown_fail j2 nm pre q post StateAcc.init hq hpre
  obtain ⟨sts, hsts⟩ := many0Loop_fail parse_state hreach hfail (i4.length + 1) (by omega)
  have hstates : parse_states i4 = .ok j sts := by
    rw [parse_states, many0]
    exact hsts
  obtain ⟨r, hr⟩ := parse_state_name_shape j j1 nm hname
  have hend : ws (tagP "# END DMI".data) j = .fail := by
    rw [hr]
    exact ws_end_fail_on_state r
  exact parse_metadata_of_end_fail input i1 i2 i3 i4 j ver w h sts hbegin hver hw hh hstates hend

theorem C7_witness :
    parse_state_properties c7WitJ1 = .ok c7WitJ2 [⟨"dirs", "1"⟩, ⟨"foo", "1"⟩]
      ∧ (⟨"foo", "1"⟩ : DreamMakerIconStateProperty).name ∉ recognizedNames
      ∧ parse_metadata c7WitInput = .err .ParseError :=
  ⟨by decide, by decide,
    C7_unknown_property_fails c7WitInput c7WitI1 c7WitI4 c7WitI4 c7WitI4 c7WitI4 c7WitJ1 c7WitJ2
      "4.0" "x" 32 32 [⟨"dirs", "1"⟩] [] ⟨"foo", "1"⟩
      (by decide) (by decide) (by decide) (by decide) (Many0Reach.refl _)
      (by decide) (by decide) (by decide) (by decide)⟩

/-! ## Success and failure of the per-frame pixel copy -/
theorem put_pixel_spec (img : Image) (x y : Nat) (p : Rgba)
    (hx : x < img.width) (hy : y < img.height) :
    ∃ img2, img.put_pixel x y p = some img2
      ∧ img2.width = img.width ∧ img2.height = img.height := by
  refine ⟨{ img with rows := img.rows.set y ((img.rows.getD y []).set x p) }, ?_, rfl, rfl⟩
  rw [Image.put_pixel, if_pos ⟨hx, hy⟩]

theorem paintPixel_some (img : Image) (data : List Nat) (cx cy iw x y : Nat)
    (hidx : (y * iw + x) * 4 + 3 < data.length)
    (hx : cx + x < img.width) (hy : cy + y < img.height) :
    ∃ img2, paintPixel img data cx cy iw x y = some img2
      ∧ img2.width = img.width ∧ img2.height = img.height := by
  rw [paintPixel]
  have h0 := List.getElem?_eq_getElem (l := data) (n := (y * iw + x) * 4) (by omega)
  have h1 := List.getElem?_eq_getElem (l := data) (n := (y * iw + x) * 4 + 1) (by omega)
  have h2 := List.getElem?_eq_getElem (l := data) (n := (y * iw + x) * 4 + 2) (by omega)
  have h3 := List.getElem?_eq_getElem (l := data) (n := (y * iw + x) * 4 + 3) (by omega)
  rw [h0, h1, h2, h3]
  exact put_pixel_spec img (cx + x) (cy + y) _ hx hy

theorem paintRow_some (data : List Nat) (cx cy iw y : Nat) :
    ∀ (xs : List Nat) (img : Image),
      (∀ x ∈ xs, (y * iw + x) * 4 + 3 < data.length) →
      (∀ x ∈ xs, cx + x < img.width) → cy + y < img.height →
      ∃ img2, paintRow data cx cy iw y img xs = some img2
        ∧ img2.width = img.width ∧ img2.height = img.height := by
  intro xs
  induction xs with
  | nil => intro img _ _ _; exact ⟨img, rfl, rfl, rfl⟩
  | cons x rest ih =>
    intro img hidx hbx hby
    obtain ⟨img2, hp, hw2, hh2⟩ := paintPixel_some img data cx cy iw x y
      (hidx x (by simp)) (hbx x (by simp)) hby
    obtain ⟨img3, hr, hw3, hh3⟩ := ih img2 (fun a ha => hidx a (by simp [ha]))
      (fun a ha => hw2 ▸ hbx a (by simp [ha])) (hh2 ▸ hby)
    refine ⟨img3, ?_, by omega, by omega⟩
    simp only [paintRow, hp, hr]

theorem paintRows_some (data : List Nat) (cx cy iw : Nat) :
    ∀ (ys : List Nat) (img : Image),
      (∀ y ∈ ys, ∀ x ∈ List.range iw, (y * iw + x) * 4 + 3 < data.length) →
      (∀ x ∈ List.range iw, cx + x < img.width) →
      (∀ y ∈ ys, cy + y < img.height) →
      ∃ img2, paintRows data cx cy iw img ys = some img2
        ∧ img2.width = img.width ∧ img2.height = img.height := by
  intro ys
  induction ys with
  | nil => intro img _ _ _; exact ⟨img, rfl, rfl, rfl⟩
  | cons y rest ih =>
    intro img hidx hbx hby
    obtain ⟨img2, hp, hw2, hh2⟩ := paintRow_some data cx cy iw y (List.range iw) img
      (hidx y (by simp)) hbx (hby y (by simp))
    obtain ⟨img3, hr, hw3, hh3⟩ := ih img2 (fun a ha => hidx a (by simp [ha]))
      (fun a ha => hw2 ▸ hbx a ha) (fun a ha => hh2 ▸ hby a (by simp [ha]))
    refine ⟨img3, ?_, by omega, by omega⟩
    simp only [paintRows, hp, hr]

theorem paintFrame_some (img : Image) (data : List Nat) (cx cy iw ihgt : Nat)
    (hbw : cx + iw ≤ img.width) (hbh : cy + ihgt ≤ img.height)
    (hlen : iw * ihgt * 4 ≤ data.length) :
    ∃ img2, paintFrame img data cx cy iw ihgt = some img2
      ∧ img2.width = img.width ∧ img2.height = img.height := by
  apply paintRows_some
  · intro y hy x hx
    simp only [List.mem_range] at hy hx
    have hab : y * iw + x + 1 ≤ iw * ihgt := by nlinarith
    omega
  · intro x hx
    simp only [List.mem_range] at hx
    omega
  · intro y hy
    simp only [List.mem_range] at hy
    omega

theorem paintPixel_some_access (img img2 : Image) (data : List Nat) (cx cy iw x y : Nat)
    (h : paintPixel img data cx cy iw x y = some img2) :
    (y * iw + x) * 4 + 3 < data.length := by
  rw [paintPixel] at h
  cases h3 : data[(y * iw + x) * 4 + 3]? with
  | some v =>
    by_contra hc
    push_neg at hc
    rw [List.getElem?_eq_none hc] at h3
    cases h3
  | none =>
    cases h0 : data[(y * iw + x) * 4]? <;> cases h1 : data[(y * iw + x) * 4 + 1]? <;>
      cases h2 : data[(y * iw + x) * 4 + 2]? <;> simp only [h0, h1, h2, h3] at h <;> cases h

theorem paintRow_access (data : List Nat) (cx cy iw y : Nat) :
    ∀ (xs : List Nat) (img img2 : Image), paintRow data cx cy iw y img xs = some img2 →
      ∀ x ∈ xs, (y * iw + x) * 4 + 3 < data.length := by
  intro xs
  induction xs with
  | nil => intro img img2 _ x hx; cases hx
  | cons x rest ih =>
    intro img img2 hp a ha
    rw [paintRow] at hp
    cases hpx : paintPixel img data cx cy iw x y with
    | none => rw [hpx] at hp; cases hp
    | some img3 =>
      rw [hpx] at hp
      rcases List.mem_cons.mp ha with rfl | hmem
      · exact paintPixel_some_access img img3 data cx cy iw a y hpx
      · exact ih img3 img2 hp a hmem

theorem paintRows_access (data : List Nat) (cx cy iw : Nat) :
    ∀ (ys : List Nat) (img img2 : Image), paintRows data cx cy iw img ys = some img2 →
      ∀ y ∈ ys, ∀ x ∈ List.range iw, (y * iw + x) * 4 + 3 < data.length := by
  intro ys
  induction ys with
  | nil => intro img img2 _ y hy; cases hy
  | cons y rest ih =>
    intro img img2 hp a ha x hx
    rw [paintRows] at hp
    cases hpr : paintRow data cx cy iw y img (List.range iw) with
    | none => rw [hpr] at hp; cases hp
    | some img3 =>
      rw [hpr] at hp
      rcases List.mem_cons.mp ha with rfl | hmem
      · exact paintRow_access data cx cy iw a (List.range iw) img img3 hpr x hx
      · exact ih img3 img2 hp a hmem x hx

theorem paintFrame_short_none (img : Image) (data : List Nat) (cx cy iw ihgt : Nat)
    (hw : 1 ≤ iw) (hh : 1 ≤ ihgt) (hshort : data.length < iw * ihgt * 4) :
    paintFrame img data cx cy iw ihgt = none := by
  cases hp : paintFrame img data cx cy iw ihgt with
  | none => rfl
  | some img2 =>
    obtain ⟨m, hm⟩ : ∃ m, ihgt = m + 1 := ⟨ihgt - 1, by omega⟩
    obtain ⟨k, hk⟩ : ∃ k, iw = k + 1 := ⟨iw - 1, by omega⟩
    rw [paintFrame] at hp
    have hacc := paintRows_access data cx cy iw (List.range ihgt) img img2 hp
      (ihgt - 1) (by simp; omega) (iw - 1) (by simp; omega)
    rw [hm, hk] at hacc hshort
    simp only [Nat.add_sub_cancel] at hacc
    have hexp : (k + 1) * (m + 1) * 4 = (m * (k + 1) + k) * 4 + 4 := by ring
    omega

/-- Claim C5 (amended): `paint_frames` performs no length check on the
decompressed frame. When the per-state transport string base64-decodes and
decompresses successfully but the decompressed data is shorter than
`frame_width * frame_height * 4`, the pixel copy indexes out of bounds and
panics (no frame-corruption error is reported); when it is at least that
long, the frame is painted from its first `frame_width * frame_height * 4`
bytes and no error is reported for it. -/
theorem C5_no_length_check (iw ihgt W H cx cy : Nat) (img : Image) (f : List Char)
    (fs : List (List Char)) (compressed data : List Nat)
    (hdec : base64_decode f = some compressed)
    (hlz : decompress_size_prepended compressed = some data)
    (hcy : cy < H)
    (hbw : cx + iw ≤ img.width) (hbh : cy + ihgt ≤ img.height)
    (hw : 1 ≤ iw) (hh : 1 ≤ ihgt) :
    (data.length < iw * ihgt * 4 →
        paintStateFrames iw ihgt W H img cx cy (f :: fs) = .panicked)
      ∧ (iw * ihgt * 4 ≤ data.length →
        ∃ img2, img2.width = img.width ∧ img2.height = img.height ∧
          paintStateFrames iw ihgt W H img cx cy (f :: fs)
            = (if cx + iw ≥ W then paintStateFrames iw ihgt W H img2 0 (cy + ihgt) fs
               else paintStateFrames iw ihgt W H img2 (cx + iw) cy fs)) := by
  constructor
  · intro hshort
    simp only [paintStateFrames, if_neg (by omega : ¬ cy ≥ H), hdec, hlz,
      paintFrame_short_none img data cx cy iw ihgt hw hh hshort]
  · intro hlong
    obtain ⟨img2, hpf, hw2, hh2⟩ := paintFrame_some img data cx cy iw ihgt hbw hbh hlong
    refine ⟨img2, hw2, hh2, ?_⟩
    simp only [paintStateFrames, if_neg (by omega : ¬ cy ≥ H), hdec, hlz, hpf]

theorem C5_witness :
    base64_decode c5Frame = some (compress_prepend_size [5, 5, 5])
      ∧ ([5, 5, 5] : List Nat).length < 1 * 1 * 4
      ∧ paintStateFrames 1 1 2 1 c5Img 0 0 [c5Frame] = .panicked :=
  ⟨by decide, by decide,
    (C5_no_length_check 1 1 2 1 0 0 c5Img c5Frame [] (compress_prepend_size [5, 5, 5]) [5, 5, 5]
      (by decide) (by decide) (by decide) (by decide) (by decide) (by decide) (by decide)).1
      (by decide)⟩

/-- Claim C5 counterexample: a frame that decodes and decompresses to 3
bytes for a declared 1x1 frame (4 bytes expected) makes `paint_frames`
panic (Rust index out of bounds) instead of reporting a frame-corruption
error. -/
theorem C5_counterexample :
    paint_frames c5CexYaml c5CexDmi (DynamicImage_new_rgba8 2 1) = .panicked := by decide

theorem paintStateFramesT_fst (iw ihgt W H : Nat) :
    ∀ (fs : List (List Char)) (img : Image) (cx cy : Nat),
      (paintStateFramesT iw ihgt W H img cx cy fs).1
        = paintStateFrames iw ihgt W H img cx cy fs := by
  intro fs
  induction fs with
  | nil => intro img cx cy; rfl
  | cons f rest ih =>
    intro img cx cy
    simp only [paintStateFramesT, paintStateFrames]
    by_cases hcy : cy ≥ H
    · simp [hcy]
    · simp only [if_neg hcy]
      cases base64_decode f with
      | none => rfl
      | some comp =>
        dsimp only
        cases decompress_size_prepended comp with
        | none => rfl
        | some data =>
          dsimp only
          cases paintFrame img data cx cy iw ihgt with
          | none => rfl
          | some img2 =>
            dsimp only
            by_cases hwrap : cx + iw ≥ W
            · simp only [if_pos hwrap]
              exact ih img2 0 (cy + ihgt)
            · simp only [if_neg hwrap]
              exact ih img2 (cx + iw) cy

theorem paintStatesT_fst (yaml : Yaml) (iw ihgt W H : Nat) :
    ∀ (states : List DreamMakerIconState) (img : Image) (cx cy : Nat),
      (paintStatesT yaml iw ihgt W H img cx cy states).1
        = paintStates yaml iw ihgt W H img cx cy states := by
  intro states
  induction states with
  | nil => intro img cx cy; rfl
  | cons s rest ih =>
    intro img cx cy
    simp only [paintStatesT, paintStates]
    cases get_icon_state_frames yaml s.name with
    | err e => rfl
    | panicked => rfl
    | ok fs =>
      dsimp only
      by_cases hm : s.dirs * s.frames ≠ fs.length
      · simp only [if_pos hm]
      · simp only [if_neg hm]
        rw [← paintStateFramesT_fst iw ihgt W H fs img cx cy]
        cases hps : (paintStateFramesT iw ihgt W H img cx cy fs).1 with
        | ok img2 cx2 cy2 => exact ih img2 cx2 cy2
        | err e => rfl
        | panicked => rfl

theorem slot_step (k fpr : Nat) (hfpr : 1 ≤ fpr) :
    (k % fpr + 1 = fpr → (k + 1) % fpr = 0 ∧ (k + 1) / fpr = k / fpr + 1)
      ∧ (k % fpr + 1 < fpr → (k + 1) % fpr = k % fpr + 1 ∧ (k + 1) / fpr = k / fpr) := by
  constructor
  · intro hlast
    have hdm := Nat.div_add_mod k fpr
    have hk1 : k + 1 = fpr * (k / fpr + 1) := by
      have hexp : fpr * (k / fpr + 1) = fpr * (k / fpr) + fpr := by ring
      omega
    constructor
    · rw [hk1]
      exact Nat.mul_mod_right fpr _
    · rw [hk1, Nat.mul_div_cancel_left _ (by omega : 0 < fpr)]
  · intro hlt
    have hdm := Nat.div_add_mod k fpr
    have hk1 : k + 1 = k % fpr + 1 + fpr * (k / fpr) := by omega
    constructor
    · rw [hk1, Nat.add_mul_mod_self_left, Nat.mod_eq_of_lt hlt]
    · rw [hk1, Nat.add_mul_div_left _ _ (by omega : 0 < fpr), Nat.div_eq_of_lt hlt]
      omega

theorem slot_trace_cons (fpr iw ihgt k n : Nat) :
    frame_slot fpr iw ihgt k
        :: (List.range n).map (fun j => frame_slot fpr iw ihgt (k + 1 + j))
      = (List.range (n + 1)).map (fun j => frame_slot fpr iw ihgt (k + j)) := by
  rw [List.range_succ_eq_map]
  simp only [List.map_cons, List.map_map, Nat.add_zero]
  congr 1
  apply List.map_congr_left
  intro j _
  simp only [Function.comp_apply]
  congr 1
  omega

theorem put_pixel_dims (img img2 : Image) (x y : Nat) (p : Rgba)
    (h : img.put_pixel x y p = some img2) :
    img2.width = img.width ∧ img2.height = img.height := by
  rw [Image.put_pixel] at h
  split at h
  · cases h; exact ⟨rfl, rfl⟩
  · cases h

theorem paintPixel_dims (img img2 : Image) (data : List Nat) (cx cy iw x y : Nat)
    (h : paintPixel img data cx cy iw x y = some img2) :
    img2.width = img.width ∧ img2.height = img.height := by
  rw [paintPixel] at h
  cases h0 : data[(y * iw + x) * 4]? <;> cases h1 : data[(y * iw + x) * 4 + 1]? <;>
    cases h2 : data[(y * iw + x) * 4 + 2]? <;> cases h3 : data[(y * iw + x) * 4 + 3]? <;>
    simp only [h0, h1, h2, h3] at h <;> first
      | cases h
      | exact put_pixel_dims img img2 _ _ _ h

theorem paintRow_dims (data : List Nat) (cx cy iw y : Nat) :
    ∀ (xs : List Nat) (img img2 : Image), paintRow data cx cy iw y img xs = some img2 →
      img2.width = img.width ∧ img2.height = img.height := by
  intro xs
  induction xs with
  | nil => intro img img2 h; cases h; exact ⟨rfl, rfl⟩
  | cons x rest ih =>
    intro img img2 h
    rw [paintRow] at h
    cases hpx : paintPixel img data cx cy iw x y with
    | none => rw [hpx] at h; cases h
    | some img3 =>
      rw [hpx] at h
      have h1 := paintPixel_dims img img3 data cx cy iw x y hpx
      have h2 := ih img3 img2 h
      omega

theorem paintRows_dims (data : List Nat) (cx cy iw : Nat) :
    ∀ (ys : List Nat) (img img2 : Image), paintRows data cx cy iw img ys = some img2 →
      img2.width = img.width ∧ img2.height = img.height := by
  intro ys
  induction ys with
  | nil => intro img img2 h; cases h; exact ⟨rfl, rfl⟩
  | cons y rest ih =>
    intro img img2 h
    rw [paintRows] at h
    cases hpr : paintRow data cx cy iw y img (List.range iw) with
    | none => rw [hpr] at h; cases h
    | some img3 =>
      rw [hpr] at h
      have h1 := paintRow_dims data cx cy iw y (List.range iw) img img3 hpr
      have h2 := ih img3 img2 h
      omega

theorem paintFrame_dims (img img2 : Image) (data : List Nat) (cx cy iw ihgt : Nat)
    (h : paintFrame img data cx cy iw ihgt = some img2) :
    img2.width = img.width ∧ img2.height = img.height :=
  paintRows_dims data cx cy iw (List.range ihgt) img img2 h

set_option maxHeartbeats 1600000 in
theorem paintStateFramesT_slots (iw ihgt fpr rows : Nat)
    (hw : 1 ≤ iw) (hh : 1 ≤ ihgt) (hfpr : 1 ≤ fpr) :
    ∀ (fs : List (List Char)) (k : Nat) (img : Image),
      img.width = fpr * iw → img.height = rows * ihgt →
      k + fs.length ≤ fpr * rows →
      (∀ f ∈ fs, ∃ compressed data, base64_decode f = some compressed
        ∧ decompress_size_prepended compressed = some data
        ∧ iw * ihgt * 4 ≤ data.length) →
      ∃ img2, img2.width = img.width ∧ img2.height = img.height
        ∧ paintStateFramesT iw ihgt (fpr * iw) (rows * ihgt) img
            (k % fpr * iw) (k / fpr * ihgt) fs
          = (.ok img2 ((k + fs.length) % fpr * iw) ((k + fs.length) / fpr * ihgt),
             (List.range fs.length).map (fun j => frame_slot fpr iw ihgt (k + j))) := by
  intro fs
  induction fs with
  | nil =>
    intro k img hwid hhgt hcap hdec
    exact ⟨img, rfl, rfl, by simp [paintStateFramesT]⟩
  | cons f rest ih =>
    intro k img hwid hhgt hcap hdec
    obtain ⟨comp, data, hdec1, hdec2, hlen⟩ := hdec f (by simp)
    have hlcons : (f :: rest).length = rest.length + 1 := rfl
    have hklt : k < fpr * rows := by omega
    have hdivlt : k / fpr < rows := by
      rw [Nat.div_lt_iff_lt_mul (by omega : 0 < fpr)]
      have hcomm : fpr * rows = rows * fpr := Nat.mul_comm _ _
      omega
    have hmod : k % fpr < fpr := Nat.mod_lt k (by omega)
    have hcylt : k / fpr * ihgt < rows * ihgt := by nlinarith
    have hbw : k % fpr * iw + iw ≤ img.width := by
      rw [hwid]
      nlinarith
    have hbh : k / fpr * ihgt + ihgt ≤ img.height := by
      rw [hhgt]
      nlinarith
    obtain ⟨img2, hpf, hw2, hh2⟩ :=
      paintFrame_some img data (k % fpr * iw) (k / fpr * ihgt) iw ihgt hbw hbh hlen
    have hdm := Nat.div_add_mod k fpr
    simp only [paintStateFramesT, if_neg (show ¬ k / fpr * ihgt ≥ rows * ihgt by omega),
      hdec1, hdec2, hpf]
    by_cases hlast : k % fpr + 1 = fpr
    · have hwrap : k % fpr * iw + iw ≥ fpr * iw := by nlinarith
      obtain ⟨hm1, hd1⟩ := (slot_step k fpr hfpr).1 hlast
      obtain ⟨img3, hw3, hh3, hrec⟩ := ih (k + 1) img2 (by omega) (by omega)
        (by omega) (fun g hg => hdec g (by simp [hg]))
      rw [hm1, hd1] at hrec
      simp only [Nat.zero_mul] at hrec
      have hcy1 : (k / fpr + 1) * ihgt = k / fpr * ihgt + ihgt := by ring
      rw [hcy1] at hrec
      simp only [if_pos hwrap, hrec]
      refine ⟨img3, by omega, by omega, ?_⟩
      simp only [List.length_cons, Prod.mk.injEq]
      constructor
      · have hfin : k + 1 + rest.length = k + (rest.length + 1) := by omega
        rw [hfin]
      · have hhead : ((k % fpr * iw, k / fpr * ihgt) : Nat × Nat) = frame_slot fpr iw ihgt k := rfl
        rw [hhead]
        exact slot_trace_cons fpr iw ihgt k rest.length
    · have hlastlt : k % fpr + 1 < fpr := by omega
      have hnowrap : ¬ k % fpr * iw + iw ≥ fpr * iw := by
        intro hcon
        have hx : (k % fpr + 1) * iw ≥ fpr * iw := by nlinarith
        have hy : (k % fpr + 2) * iw ≤ fpr * iw :=
          Nat.mul_le_mul_right iw (by omega)
        nlinarith
      obtain ⟨hm1, hd1⟩ := (slot_step k fpr hfpr).2 hlastlt
      obtain ⟨img3, hw3, hh3, hrec⟩ := ih (k + 1) img2 (by omega) (by omega)
        (by omega) (fun g hg => hdec g (by simp [hg]))
      rw [hm1, hd1] at hrec
      have hcx1 : (k % fpr + 1) * iw = k % fpr * iw + iw := by ring
      rw [hcx1] at hrec
      simp only [if_neg hnowrap, hrec]
      refine ⟨img3, by omega, by omega, ?_⟩
      simp only [List.length_cons, Prod.mk.injEq]
      constructor
      · have hfin : k + 1 + rest.length = k + (rest.length + 1) := by omega
        rw [hfin]
      · have hhead : ((k % fpr * iw, k / fpr * ihgt) : Nat × Nat) = frame_slot fpr iw ihgt k := rfl
        rw [hhead]
        exact slot_trace_cons fpr iw ihgt k rest.length

/-! ## Newline split/join -/
theorem splitChar_no_sep (sep : Char) :
    ∀ (l : List Char), (∀ c ∈ l, c ≠ sep) → splitChar sep l = [l] := by
  intro l
  induction l with
  | nil => intro _; rfl
  | cons c rest ih =>
    intro h
    rw [splitChar, if_neg (h c (by simp)), ih (fun a ha => h a (by simp [ha]))]

theorem splitChar_append (sep : Char) :
    ∀ (a b : List Char), (∀ c ∈ a, c ≠ sep) →
      splitChar sep (a ++ sep :: b) = a :: splitChar sep b := by
  intro a
  induction a with
  | nil =>
    intro b _
    rw [List.nil_append, splitChar, if_pos rfl]
  | cons c rest ih =>
    intro b h
    rw [List.cons_append, splitChar, if_neg (h c (by simp)),
      ih b (fun x hx => h x (by simp [hx]))]

theorem splitChar_joinNewline :
    ∀ (fs : List (List Char)), fs ≠ [] → (∀ f ∈ fs, ∀ c ∈ f, c ≠ '\n') →
      splitChar '\n' (joinNewline fs) = fs := by
  intro fs
  induction fs with
  | nil => intro h _; exact absurd rfl h
  | cons f rest ih =>
    intro _ h
    cases rest with
    | nil => exact splitChar_no_sep '\n' f (h f (by simp))
    | cons g rest2 =>
      have hj : joinNewline (f :: g :: rest2) = f ++ '\n' :: joinNewline (g :: rest2) := rfl
      rw [hj, splitChar_append '\n' f _ (h f (by simp)),
        ih (by simp) (fun x hx => h x (by simp [hx]))]

theorem replicate_bytes_lt (n c : Nat) (hc : c < 256) : ∀ b ∈ List.replicate n c, b < 256 := by
  intro b hb
  have := List.eq_of_mem_replicate hb
  omega

/-- Claim C4 counterexample: with one state idle (dirs 4, frames 1), frame
size 32x32 and a declared canvas of 128x32 (room for exactly 4 frames),
`get_image_dimensions` does not keep the 128x32 canvas: the equality case
of the strict `>=` check triggers growth and the canvas becomes 96x64. -/
theorem C4_counterexample :
    get_image_dimensions c4Yaml c4Dmi = .ok (96, 64)
      ∧ get_image_dimensions c4Yaml c4Dmi ≠ .ok (128, 32) :=
  ⟨by decide, by decide⟩

/-- Claim C4 (amended): for metadata with one state idle (dirs 4,
frames 1), frame size 32x32 and declared canvas 128x32 (exactly 4 frames),
`frames_needed = frames_available = 4`, so the `>=` check triggers growth:
the canvas becomes 96x64 (3 frames per row), painting succeeds, and the
four frames are painted at top-left positions (0,0), (32,0), (64,0) and
(0,32). -/
theorem C4_growth_and_positions :
    get_image_dimensions c4Yaml c4Dmi = .ok (96, 64)
      ∧ ∃ img2, paint_frames c4Yaml c4Dmi (DynamicImage_new_rgba8 96 64) = .ok img2
        ∧ (paintStatesT c4Yaml 32 32 96 64 (DynamicImage_new_rgba8 96 64) 0 0 c4Dmi.states).2
            = [(0, 0), (32, 0), (64, 0), (0, 32)] := by
  have hlen4 : c4Frames.length = 4 := rfl
  have hframes : ∀ f ∈ c4Frames, ∀ c ∈ f, c ≠ '\n' := by
    intro f hf
    simp only [c4Frames, List.mem_cons, List.not_mem_nil, or_false] at hf
    rcases hf with rfl | rfl | rfl | rfl <;>
      exact base64_encode_no_newline _
        (compress_bytes_lt _ (replicate_bytes_lt 4096 _ (by omega)))
  have hget : get_icon_state_frames c4Yaml "idle" = .ok c4Frames := by
    rw [get_icon_state_frames]
    have hym : ymGet c4Yaml "idle" = some (.str (joinNewline c4Frames)) := by
      rw [c4Yaml, ymGet, if_neg (by decide), ymGet, if_neg (by decide), ymGet, if_pos rfl]
    rw [hym]
    simp only [Value.as_str]
    have hne : c4Frames ≠ [] := by
      intro hcon
      rw [hcon] at hlen4
      exact absurd hlen4 (by decide)
    rw [splitChar_joinNewline c4Frames hne hframes]
  have hdec : ∀ f ∈ c4Frames, ∃ compressed data, base64_decode f = some compressed
      ∧ decompress_size_prepended compressed = some data ∧ 32 * 32 * 4 ≤ data.length := by
    intro f hf
    simp only [c4Frames, List.mem_cons, List.not_mem_nil, or_false] at hf
    rcases hf with rfl | rfl | rfl | rfl <;>
      refine ⟨_, _,
        base64_decode_encode _ (compress_bytes_lt _ (replicate_bytes_lt 4096 _ (by omega))),
        decompress_size_prepended_compress _ (by rw [List.length_replicate]; norm_num),
        by rw [List.length_replicate]⟩
  obtain ⟨img2, hw2, hh2, hpaint⟩ :=
    paintStateFramesT_slots 32 32 3 2 (by omega) (by omega) (by omega) c4Frames 0
      (DynamicImage_new_rgba8 96 64) rfl rfl (by omega) hdec
  rw [hlen4] at hpaint
  have e96 : (3 * 32 : Nat) = 96 := rfl
  have e64 : (2 * 32 : Nat) = 64 := rfl
  have ez1 : (0 % 3 * 32 : Nat) = 0 := rfl
  have ez2 : (0 / 3 * 32 : Nat) = 0 := rfl
  have ec1 : ((0 + 4) % 3 * 32 : Nat) = 32 := rfl
  have ec2 : ((0 + 4) / 3 * 32 : Nat) = 32 := rfl
  simp only [e96, e64, ez1, ez2, ec1, ec2] at hpaint
  have etr : (List.range 4).map (fun j => frame_slot 3 32 32 (0 + j))
      = [(0, 0), (32, 0), (64, 0), (0, 32)] := by decide
  obtain ⟨fr, hfr, hfrlen, hfrpaint⟩ :
      ∃ fr, get_icon_state_frames c4Yaml "idle" = .ok fr ∧ fr.length = 4
        ∧ paintStateFramesT 32 32 96 64 (DynamicImage_new_rgba8 96 64) 0 0 fr
          = (.ok img2 32 32, (List.range 4).map (fun j => frame_slot 3 32 32 (0 + j))) :=
    ⟨c4Frames, hget, hlen4, hpaint⟩
  have hT : paintStatesT c4Yaml 32 32 96 64 (DynamicImage_new_rgba8 96 64) 0 0 c4Dmi.states
      = (.ok img2 32 32, [(0, 0), (32, 0), (64, 0), (0, 32)]) := by
    show paintStatesT c4Yaml 32 32 96 64 (DynamicImage_new_rgba8 96 64) 0 0
        [⟨"idle", none, 4, 1, none, none, none, none⟩] = _
    simp only [paintStatesT, hfr]
    rw [if_neg (by rw [hfrlen]; norm_num)]
    simp only [hfrpaint]
    rw [etr]
    rfl
  have hstates : paintStates c4Yaml 32 32 96 64 (DynamicImage_new_rgba8 96 64) 0 0 c4Dmi.states
      = .ok img2 32 32 := by
    have hfst := paintStatesT_fst c4Yaml 32 32 96 64 c4Dmi.states
      (DynamicImage_new_rgba8 96 64) 0 0
    rw [hT] at hfst
    exact hfst.symm
  refine ⟨by decide, img2, ?_, by rw [hT]⟩
  rw [paint_frames]
  have hp1 : c4Dmi.width = 32 := rfl
  have hp2 : c4Dmi.height = 32 := rfl
  have hp3 : (DynamicImage_new_rgba8 96 64).width = 96 := rfl
  have hp4 : (DynamicImage_new_rgba8 96 64).height = 64 := rfl
  rw [hp1, hp2, hp3, hp4, hstates]

/-! ## The layout-exhausted branch is unreachable (C6) -/
theorem frames_needed_aux : ∀ (l : List DreamMakerIconState) (a : Nat),
    l.foldl (fun acc s => acc + s.dirs * s.frames) a = a + frames_needed l := by
  intro l
  induction l with
  | nil => intro a; simp [frames_needed]
  | cons s rest ih =>
    intro a
    rw [frames_needed, List.foldl_cons, List.foldl_cons, ih, ih]
    omega

theorem frames_needed_cons (s : DreamMakerIconState) (rest : List DreamMakerIconState) :
    frames_needed (s :: rest) = s.dirs * s.frames + frames_needed rest := by
  rw [frames_needed, List.foldl_cons, frames_needed_aux]
  omega

set_option maxHeartbeats 1600000 in
theorem paintStateFrames_result (iw ihgt fpr rows : Nat)
    (hw : 1 ≤ iw) (hh : 1 ≤ ihgt) (hfpr : 1 ≤ fpr) :
    ∀ (fs : List (List Char)) (k : Nat) (img : Image),
      img.width = fpr * iw → img.height = rows * ihgt →
      k + fs.length ≤ fpr * rows →
      paintStateFrames iw ihgt (fpr * iw) (rows * ihgt) img (k % fpr * iw) (k / fpr * ihgt) fs
          ≠ .err .TooManyFrames
        ∧ ∀ img2 cx2 cy2,
            paintStateFrames iw ihgt (fpr * iw) (rows * ihgt) img (k % fpr * iw) (k / fpr * ihgt) fs
              = .ok img2 cx2 cy2 →
            img2.width = img.width ∧ img2.height = img.height
              ∧ cx2 = (k + fs.length) % fpr * iw ∧ cy2 = (k + fs.length) / fpr * ihgt := by
  intro fs
  induction fs with
  | nil =>
    intro k img hwid hhgt hcap
    constructor
    · simp [paintStateFrames]
    · intro img2 cx2 cy2 hok
      rw [paintStateFrames] at hok
      cases hok
      refine ⟨rfl, rfl, by simp, by simp⟩
  | cons f rest ih =>
    intro k img hwid hhgt hcap
    have hlcons : (f :: rest).length = rest.length + 1 := rfl
    have hklt : k < fpr * rows := by omega
    have hdivlt : k / fpr < rows := by
      rw [Nat.div_lt_iff_lt_mul (by omega : 0 < fpr)]
      have hcomm : fpr * rows = rows * fpr := Nat.mul_comm _ _
      omega
    have hmod : k % fpr < fpr := Nat.mod_lt k (by omega)
    have hcylt : k / fpr * ihgt < rows * ihgt := by nlinarith
    have hdm := Nat.div_add_mod k fpr
    simp only [paintStateFrames, if_neg (show ¬ k / fpr * ihgt ≥ rows * ihgt by omega)]
    cases hb : base64_decode f with
    | none =>
      refine ⟨by simp, fun img2 cx2 cy2 h => by cases h⟩
    | some comp =>
      dsimp only
      cases hlz : decompress_size_prepended comp with
      | none =>
        refine ⟨by simp, fun img2 cx2 cy2 h => by cases h⟩
      | some data =>
        dsimp only
        cases hpf : paintFrame img data (k % fpr * iw) (k / fpr * ihgt) iw ihgt with
        | none =>
          refine ⟨by simp, fun img2 cx2 cy2 h => by cases h⟩
        | some img3 =>
          dsimp only
          obtain ⟨hw3, hh3⟩ := paintFrame_dims img img3 data _ _ _ _ hpf
          by_cases hlast : k % fpr + 1 = fpr
          · have hwrap : k % fpr * iw + iw ≥ fpr * iw := by nlinarith
            obtain ⟨hm1, hd1⟩ := (slot_step k fpr hfpr).1 hlast
            have hih := ih (k + 1) img3 (by omega) (by omega) (by omega)
            rw [hm1, hd1] at hih
            have hz : (0 : Nat) * iw = 0 := Nat.zero_mul iw
            have hcy1 : (k / fpr + 1) * ihgt = k / fpr * ihgt + ihgt := by ring
            rw [hz, hcy1] at hih
            rw [if_pos hwrap]
            refine ⟨hih.1, ?_⟩
            intro img2 cx2 cy2 hok
            obtain ⟨ha, hb2, hc, hd2⟩ := hih.2 img2 cx2 cy2 hok
            have hfin : k + 1 + rest.length = k + (rest.length + 1) := by omega
            rw [hfin] at hc hd2
            exact ⟨by omega, by omega, hc, hd2⟩
          · have hlastlt : k % fpr + 1 < fpr := by omega
            have hnowrap : ¬ k % fpr * iw + iw ≥ fpr * iw := by
              intro hcon
              have hx : (k % fpr + 1) * iw ≥ fpr * iw := by nlinarith
              have hy : (k % fpr + 2) * iw ≤ fpr * iw :=
                Nat.mul_le_mul_right iw (by omega)
              nlinarith
            obtain ⟨hm1, hd1⟩ := (slot_step k fpr hfpr).2 hlastlt
            have hih := ih (k + 1) img3 (by omega) (by omega) (by omega)
            rw [hm1, hd1] at hih
            have hcx1 : (k % fpr + 1) * iw = k % fpr * iw + iw := by ring
            rw [hcx1] at hih
            rw [if_neg hnowrap]
            refine ⟨hih.1, ?_⟩
            intro img2 cx2 cy2 hok
            obtain ⟨ha, hb2, hc, hd2⟩ := hih.2 img2 cx2 cy2 hok
            have hfin : k + 1 + rest.length = k + (rest.length + 1) := by omega
            rw [hfin] at hc hd2
            exact ⟨by omega, by omega, hc, hd2⟩

theorem paintStates_no_toomany (yaml : Yaml) (iw ihgt fpr rows : Nat)
    (hw : 1 ≤ iw) (hh : 1 ≤ ihgt) (hfpr : 1 ≤ fpr) :
    ∀ (states : List DreamMakerIconState) (k : Nat) (img : Image),
      img.width = fpr * iw → img.height = rows * ihgt →
      k + frames_needed states ≤ fpr * rows →
      (∀ s ∈ states, ∃ fs, get_icon_state_frames yaml s.name = .ok fs
          ∧ fs.length = s.dirs * s.frames) →
      paintStates yaml iw ihgt (fpr * iw) (rows * ihgt) img (k % fpr * iw) (k / fpr * ihgt) states
        ≠ .err .TooManyFrames := by
  intro states
  induction states with
  | nil =>
    intro k img _ _ _ _
    simp [paintStates]
  | cons s rest ih =>
    intro k img hwid hhgt hcap hcounts
    obtain ⟨fs, hget, hflen⟩ := hcounts s (by simp)
    have hneed := frames_needed_cons s rest
    simp only [paintStates, hget]
    rw [if_neg (by omega)]
    have hres := paintStateFrames_result iw ihgt fpr rows hw hh hfpr fs k img hwid hhgt
      (by omega)
    cases hps : paintStateFrames iw ihgt (fpr * iw) (rows * ihgt) img
        (k % fpr * iw) (k / fpr * ihgt) fs with
    | err e =>
      intro hcon
      simp only [PaintOutcome.err.injEq] at hcon
      rw [hcon] at hps
      exact hres.1 hps
    | panicked => simp
    | ok img3 cx3 cy3 =>
      obtain ⟨hw3, hh3, hcx, hcy⟩ := hres.2 img3 cx3 cy3 hps
      rw [hcx, hcy]
      exact ih (k + fs.length) img3 (by omega) (by omega) (by omega)
        (fun q hq => hcounts q (by simp [hq]))

theorem get_image_dimensions_spec (yaml : Yaml) (dmi : DreamMakerIconMetadata)
    (dW dH W H : Nat)
    (hW : get_u32 yaml IMAGE_WIDTH_KEY = .ok dW)
    (hH : get_u32 yaml IMAGE_HEIGHT_KEY = .ok dH)
    (hfw : 1 ≤ dmi.width) (hfh : 1 ≤ dmi.height)
    (hmw : dW % dmi.width = 0) (hmh : dH % dmi.height = 0)
    (hok : get_image_dimensions yaml dmi = .ok (W, H)) :
    ∃ fpr rows, 1 ≤ fpr ∧ W = fpr * dmi.width ∧ H = rows * dmi.height
      ∧ frames_needed dmi.states < fpr * rows := by
  simp only [get_image_dimensions, hW, hH] at hok
  rw [if_neg (by omega)] at hok
  by_cases hg : frames_needed dmi.states ≥ dW / dmi.width * (dH / dmi.height)
  · rw [if_pos hg] at hok
    split at hok
    · cases hok
    · simp only [PResult.ok.injEq] at hok
      have hcapa := grow_capacity dmi.width dmi.height (frames_needed dmi.states) hfw hfh
      rw [hok] at hcapa
      have hg1 : (grow_dimensions dmi.width dmi.height (frames_needed dmi.states)).1
          = (isqrt (dmi.width * dmi.height * frames_needed dmi.states) / dmi.width + 1)
            * dmi.width := rfl
      have hg2 : (grow_dimensions dmi.width dmi.height (frames_needed dmi.states)).2
          = (frames_needed dmi.states
              / (isqrt (dmi.width * dmi.height * frames_needed dmi.states) / dmi.width + 1) + 1)
            * dmi.height := rfl
      rw [hok] at hg1 hg2
      refine ⟨isqrt (dmi.width * dmi.height * frames_needed dmi.states) / dmi.width + 1,
        frames_needed dmi.states
          / (isqrt (dmi.width * dmi.height * frames_needed dmi.states) / dmi.width + 1) + 1,
        Nat.succ_le_succ (Nat.zero_le _), hg1, hg2, ?_⟩
      rw [hg1, hg2] at hcapa
      rw [mul_div_cancel_self _ dmi.width (by omega),
        mul_div_cancel_self _ dmi.height (by omega)] at hcapa
      exact hcapa
  · rw [if_neg hg] at hok
    split at hok
    · cases hok
    · simp only [PResult.ok.injEq, Prod.mk.injEq] at hok
      push_neg at hg
      obtain ⟨hWd, hHd⟩ := hok
      have hfpr1 : 1 ≤ dW / dmi.width := by
        rcases Nat.eq_zero_or_pos (dW / dmi.width) with h0 | h1
        · rw [h0] at hg
          simp at hg
        · omega
      refine ⟨dW / dmi.width, dH / dmi.height, hfpr1, ?_, ?_, hg⟩
      · rw [← hWd]
        exact (Nat.div_mul_cancel (Nat.dvd_of_mod_eq_zero hmw)).symm
      · rw [← hHd]
        exact (Nat.div_mul_cancel (Nat.dvd_of_mod_eq_zero hmh)).symm

/-- Claim C6: given canvas dimensions produced by `get_image_dimensions`
(with declared dimensions that are exact multiples of the frame size) and
per-state frame lists that pass the per-state count check, the
`TooManyFrames` (layout-exhausted) branch of `paint_frames` is unreachable:
the cursor never reaches `cursor_y >= image_height` before every frame of
every state has been painted. -/
theorem C6_toomany_unreachable (yaml : Yaml) (dmi : DreamMakerIconMetadata) (dW dH W H : Nat)
    (hW : get_u32 yaml IMAGE_WIDTH_KEY = .ok dW)
    (hH : get_u32 yaml IMAGE_HEIGHT_KEY = .ok dH)
    (hfw : 1 ≤ dmi.width) (hfh : 1 ≤ dmi.height)
    (hmw : dW % dmi.width = 0) (hmh : dH % dmi.height = 0)
    (hok : get_image_dimensions yaml dmi = .ok (W, H))
    (hcounts : ∀ s ∈ dmi.states, ∃ fs, get_icon_state_frames yaml s.name = .ok fs
        ∧ fs.length = s.dirs * s.frames) :
    paint_frames yaml dmi (DynamicImage_new_rgba8 W H) ≠ .err .TooManyFrames := by
  obtain ⟨fpr, rows, hfpr, hWe, hHe, hcap⟩ :=
    get_image_dimensions_spec yaml dmi dW dH W H hW hH hfw hfh hmw hmh hok
  have hns := paintStates_no_toomany yaml dmi.width dmi.height fpr rows hfw hfh hfpr
    dmi.states 0 (DynamicImage_new_rgba8 W H) (by exact hWe) (by exact hHe)
    (by omega) hcounts
  have hz1 : 0 % fpr * dmi.width = 0 := by rw [Nat.zero_mod, Nat.zero_mul]
  have hz2 : 0 / fpr * dmi.height = 0 := by rw [Nat.zero_div, Nat.zero_mul]
  rw [hz1, hz2] at hns
  intro hcon
  rw [paint_frames] at hcon
  rw [show (DynamicImage_new_rgba8 W H).width = fpr * dmi.width from hWe,
    show (DynamicImage_new_rgba8 W H).height = rows * dmi.height from hHe] at hcon
  cases hps : paintStates yaml dmi.width dmi.height (fpr * dmi.width) (rows * dmi.height)
      (DynamicImage_new_rgba8 W H) 0 0 dmi.states with
  | ok i a b => rw [hps] at hcon; cases hcon
  | panicked => rw [hps] at hcon; cases hcon
  | err e =>
    rw [hps] at hcon
    cases hcon
    exact hns hps

theorem C6_witness :
    get_image_dimensions c6Yaml c6Dmi = .ok (2, 1)
      ∧ paint_frames c6Yaml c6Dmi (DynamicImage_new_rgba8 2 1) ≠ .err .TooManyFrames := by
  refine ⟨by decide, ?_⟩
  exact C6_toomany_unreachable c6Yaml c6Dmi 2 1 2 1 (by decide) (by decide) (by decide)
    (by decide) (by decide) (by decide) (by decide)
    (by
      intro s hs
      simp only [c6Dmi, List.mem_cons, List.not_mem_nil, or_false] at hs
      subst hs
      exact ⟨["x".data], by decide, by decide⟩)

end IconTool
